import Mathlib

/-!
Verification of the colibri web-scraping framework (github.com/eduardogxnzalez/colibri).

This file gives a shallow embedding, in Lean, of the parts of the Go source
that the specification claims talk about:

* the `Rules` / `Selector` data model (`rules.go`, `selector.go`),
* the error aggregator (`Errs` / `AddError`; the file defining it is not part
  of the provided sources, so it is modelled from the specification and from
  the behaviour pinned down by `TestErrs` in `colibri_test.go`),
* the orchestrator `Colibri.Do` (`colibri.go`),
* the recursive extraction engine `findSelectors` / `findSelector` /
  `findAllSelector` / `followSelector` (package `parsers`),
* selector construction `newSelector` / `newSelectors` / `processRaw` with
  `DefaultConvFunc` (`selector.go`, `rules.go`, `convFunc.go`).

Modelling conventions:
* Go machine integers (`time.Duration` is an `int64` nanosecond count) are
  modelled as `Int`; no claim depends on overflow.
* Go slices are modelled as Lean lists; a nil slice and an empty slice are
  identified (no claim distinguishes them).
* Go maps (`map[string]any`, `http.Header`) are modelled as association
  lists with the Go-map property of unique keys reflected by way of
  first-match lookup and in-place upsert; Go map iteration order is
  abstracted to list order.
* Go interface values (`any`) are modelled by the inductive type `GoVal`;
  a nil interface is `GoVal.gNil`, and a typed pointer that may be nil is
  an `Option` inside the corresponding constructor.
* Go's `net/url` parsing/resolution (standard library, external to the
  repository) is modelled by a simplified executable parser that keeps the
  properties the engine relies on: absolute/relative distinction,
  resolution of a relative reference against a base, and rendering back to
  a string.
* The collaborator interfaces (`HTTPClient`, `RobotsTxt`, `Response`,
  `Element`) are modelled as structures of (pure) functions; calls to
  collaborators performed by `Colibri.Do` are additionally recorded in a
  trace so that "the transport was never invoked" is a statement about the
  trace.
-/

/-! ## URLs (model of the parts of net/url the code uses) -/

/-- A parsed URL; simplified model of Go `url.URL` keeping scheme, host,
path and query. -/
structure URLv where
  scheme : String
  host : String
  path : String
  query : String
  deriving DecidableEq, Repr

/-- The zero `url.URL{}` value. -/
def URLv.empty : URLv := ⟨"", "", "", ""⟩

/-- Model of `(*url.URL).IsAbs`: a URL is absolute when it has a scheme. -/
def URLv.isAbs (u : URLv) : Bool := u.scheme ≠ ""

/-- Split a character list at the first occurrence of a separator
sequence, returning the parts before and after it. -/
def splitSeqAux (sep : List Char) : List Char → List Char →
    Option (List Char × List Char)
  | _, [] => none
  | acc, c :: rest =>
    if sep.isPrefixOf (c :: rest) then some (acc.reverse, (c :: rest).drop sep.length)
    else splitSeqAux sep (c :: acc) rest

/-- Simplified model of `url.Parse` for well-formed inputs: an input
containing "://" is split into scheme, host (up to the first slash) and
path plus query (after the first "?"); anything else is a relative
reference whose path (and query) is the input. This model never fails;
the failure mode of `ToURL` used by the claims is the non-string case. -/
def parseURL (s : String) : URLv :=
  match splitSeqAux "://".data [] s.data with
  | some (schemeCs, restCs) =>
    let host := restCs.takeWhile (fun c => c != '/')
    let pathq := restCs.dropWhile (fun c => c != '/')
    let path := pathq.takeWhile (fun c => c != '?')
    let query := (pathq.dropWhile (fun c => c != '?')).drop 1
    ⟨String.mk schemeCs, String.mk host, String.mk path, String.mk query⟩
  | none =>
    let path := s.data.takeWhile (fun c => c != '?')
    let query := (s.data.dropWhile (fun c => c != '?')).drop 1
    ⟨"", "", String.mk path, String.mk query⟩

/-- Simplified model of `(*url.URL).ResolveReference` (RFC 3986 §5.3):
an absolute reference replaces the base; a reference with a host keeps the
base scheme; a reference with an empty path keeps the base path (and the
base query when the reference has none); otherwise the reference path
replaces the base path. -/
def URLv.resolveReference (base ref : URLv) : URLv :=
  if ref.scheme ≠ "" then ref
  else if ref.host ≠ "" then ⟨base.scheme, ref.host, ref.path, ref.query⟩
  else if ref.path = "" then
    ⟨base.scheme, base.host, base.path, if ref.query = "" then base.query else ref.query⟩
  else ⟨base.scheme, base.host, ref.path, ref.query⟩

/-- Model of `(*url.URL).String`. -/
def URLv.render (u : URLv) : String :=
  (if u.scheme ≠ "" then u.scheme ++ "://" ++ u.host else "") ++
    u.path ++ (if u.query ≠ "" then "?" ++ u.query else "")

/-! ## HTTP headers (model of the parts of net/http.Header the code uses) -/

/-- Model of a non-nil `http.Header` value: an association list from header
key to the list of values. Key canonicalization is abstracted away: the
code under verification always uses the already-canonical "User-Agent". -/
def HeaderV : Type := List (String × List String)

instance : DecidableEq HeaderV := by
  unfold HeaderV
  infer_instance

/-- Model of `http.Header.Get` on a possibly-nil header: first value stored
under the key, or "" when the header is nil or the key absent. -/
def headerGet (h : Option HeaderV) (key : String) : String :=
  match h with
  | none => ""
  | some l =>
    match l.lookup key with
    | some (v :: _) => v
    | _ => ""

/-- In-place upsert on an association list: replaces the value stored at
the first occurrence of the key, or appends when the key is absent. -/
def listUpsert {α : Type} (l : List (String × α)) (key : String) (v : α) :
    List (String × α) :=
  match l with
  | [] => [(key, v)]
  | (k, w) :: rest =>
    if k = key then (k, v) :: rest else (k, w) :: listUpsert rest key v

/-- Model of `http.Header.Set` on a possibly-nil header (the code only
calls `Set` after ensuring the header is non-nil). -/
def headerSet (h : Option HeaderV) (key value : String) : Option HeaderV :=
  match h with
  | none => some [(key, [value])]
  | some l => some (listUpsert l key [value])

/-- Model of `http.Header.Clone`: a deep copy of the header; `Clone` of a
nil header is nil. At the level of values the copy is entrywise. -/
def headerClone (h : Option HeaderV) : Option HeaderV :=
  match h with
  | none => none
  | some l => some (l.map (fun e => (e.1, e.2.map id)))

theorem headerClone_eq (h : Option HeaderV) : headerClone h = h := by
  cases h with
  | none => rfl
  | some l =>
    simp only [headerClone, List.map_id]
    congr 1
    induction l with
    | nil => rfl
    | cons e rest ih => simp [ih]

/-! ## Decimal rendering of naturals (for the aggregator's collision
suffixes), with injectivity -/

/-- Little-endian decimal digits of a natural number. -/
def natDigitsRev : Nat → List Nat
  | 0 => []
  | n + 1 => ((n + 1) % 10) :: natDigitsRev ((n + 1) / 10)
decreasing_by exact Nat.div_lt_self (Nat.succ_pos n) (by omega)

/-- Value of a little-endian digit list. -/
def ofDigitsRev : List Nat → Nat
  | [] => 0
  | d :: rest => d + 10 * ofDigitsRev rest

theorem ofDigitsRev_natDigitsRev (n : Nat) : ofDigitsRev (natDigitsRev n) = n := by
  induction n using Nat.strong_induction_on with
  | _ n ih =>
    match n with
    | 0 => simp [natDigitsRev, ofDigitsRev]
    | m + 1 =>
      rw [natDigitsRev, ofDigitsRev,
        ih ((m + 1) / 10) (Nat.div_lt_self (Nat.succ_pos m) (by omega))]
      omega

theorem natDigitsRev_injective : Function.Injective natDigitsRev := by
  intro a b h
  have ha := ofDigitsRev_natDigitsRev a
  rw [h, ofDigitsRev_natDigitsRev] at ha
  omega

theorem natDigitsRev_lt (n : Nat) : ∀ d ∈ natDigitsRev n, d < 10 := by
  induction n using Nat.strong_induction_on with
  | _ n ih =>
    match n with
    | 0 => intro d hd; simp [natDigitsRev] at hd
    | m + 1 =>
      intro d hd
      rw [natDigitsRev] at hd
      rcases List.mem_cons.mp hd with h1 | h2
      · omega
      · exact ih ((m + 1) / 10) (Nat.div_lt_self (Nat.succ_pos m) (by omega)) d h2

/-- One decimal digit as a character. -/
def digitToChar (d : Nat) : Char :=
  match d with
  | 0 => '0'
  | 1 => '1'
  | 2 => '2'
  | 3 => '3'
  | 4 => '4'
  | 5 => '5'
  | 6 => '6'
  | 7 => '7'
  | 8 => '8'
  | 9 => '9'
  | _ => '?'

theorem digitToChar_inj_fin :
    ∀ a b : Fin 10, digitToChar a.1 = digitToChar b.1 → a = b := by decide

theorem digitToChar_inj {a b : Nat} (ha : a < 10) (hb : b < 10)
    (h : digitToChar a = digitToChar b) : a = b := by
  have := digitToChar_inj_fin ⟨a, ha⟩ ⟨b, hb⟩ h
  exact congrArg Fin.val this

theorem map_digitToChar_inj : ∀ (l1 l2 : List Nat), (∀ d ∈ l1, d < 10) →
    (∀ d ∈ l2, d < 10) → l1.map digitToChar = l2.map digitToChar → l1 = l2 := by
  intro l1
  induction l1 with
  | nil => intro l2 _ _ h; cases l2 <;> simp_all
  | cons d rest ih =>
    intro l2 h1 h2 h
    cases l2 with
    | nil => simp_all
    | cons e rest2 =>
      simp only [List.map_cons, List.cons.injEq] at h
      have hd : d = e :=
        digitToChar_inj (h1 d (by simp)) (h2 e (by simp)) h.1
      have hr : rest = rest2 :=
        ih rest2 (fun x hx => h1 x (by simp [hx])) (fun x hx => h2 x (by simp [hx])) h.2
      rw [hd, hr]

/-- Decimal rendering of a natural number, used by the aggregator model
for its collision suffixes. Agrees with the standard decimal notation. -/
def natStr (n : Nat) : String :=
  if n = 0 then "0" else String.mk ((natDigitsRev n).reverse.map digitToChar)

theorem natStr_data (n : Nat) :
    (natStr n).data =
      if n = 0 then [Char.ofNat 48] else (natDigitsRev n).reverse.map digitToChar := by
  unfold natStr
  split <;> rfl

theorem natDigitsRev_eq_zero_list (b : Nat) (h : natDigitsRev b = [0]) : b = 0 := by
  have hv := ofDigitsRev_natDigitsRev b
  rw [h] at hv
  simpa [ofDigitsRev] using hv.symm

theorem natStr_injective : Function.Injective natStr := by
  intro a b h
  have hd : (natStr a).data = (natStr b).data := congrArg String.data h
  rw [natStr_data, natStr_data] at hd
  by_cases ha : a = 0 <;> by_cases hb : b = 0
  · omega
  · exfalso
    rw [if_pos ha, if_neg hb] at hd
    have hlist : [(0 : Nat)] = (natDigitsRev b).reverse :=
      map_digitToChar_inj [0] (natDigitsRev b).reverse (by intro d hdm; simp at hdm; omega)
        (fun d hdm => natDigitsRev_lt b d (List.mem_reverse.mp hdm))
        (by simpa [digitToChar] using hd)
    have hrev : natDigitsRev b = [0] := by
      have h2 := congrArg List.reverse hlist
      simpa using h2.symm
    exact hb (natDigitsRev_eq_zero_list b hrev)
  · exfalso
    rw [if_neg ha, if_pos hb] at hd
    have hlist : (natDigitsRev a).reverse = [(0 : Nat)] :=
      map_digitToChar_inj (natDigitsRev a).reverse [0]
        (fun d hdm => natDigitsRev_lt a d (List.mem_reverse.mp hdm))
        (by intro d hdm; simp at hdm; omega)
        (by simpa [digitToChar] using hd)
    have hrev : natDigitsRev a = [0] := by
      have h2 := congrArg List.reverse hlist
      simpa using h2
    exact ha (natDigitsRev_eq_zero_list a hrev)
  · rw [if_neg ha, if_neg hb] at hd
    have hlist := map_digitToChar_inj (natDigitsRev a).reverse (natDigitsRev b).reverse
      (fun d hdm => natDigitsRev_lt a d (List.mem_reverse.mp hdm))
      (fun d hdm => natDigitsRev_lt b d (List.mem_reverse.mp hdm)) hd
    have heq : natDigitsRev a = natDigitsRev b := by
      have h2 := congrArg List.reverse hlist
      simpa using h2
    exact natDigitsRev_injective heq

/-! ## Go errors and the error aggregator -/

/-- Model of a Go `error` value: either a leaf error (identified by its
message) or an `*Errs` aggregate, an ordered mapping from string key to a
nested error. -/
inductive GoErr where
  | leaf (msg : String)
  | errs (entries : List (String × GoErr))

/-- Sentinel errors of the colibri package. -/
def errClientIsNil : GoErr := .leaf "Client is nil"

def errRulesIsNil : GoErr := .leaf "Rules is nil"

def errInvalidSelector : GoErr := .leaf "invalid selector"

def errInvalidSelectors : GoErr := .leaf "invalid selectors"

def errNotAssignable : GoErr := .leaf "value is not assignable to field"

def errMustBeConvBool : GoErr := .leaf "must be a bool, string or number"

def errMustBeConvDuration : GoErr := .leaf "must be a string or number"

def errMustBeString : GoErr := .leaf "must be a string"

def errInvalidHeader : GoErr := .leaf "invalid header"

/-- Modelled from the spec: the repository sources do not include the file
defining the `Errs` aggregator; §4.4 of the specification together with
`TestErrs` (colibri_test.go) fix its behaviour. `errsFreeSuffix` searches,
fuel-bounded, for the first n ≥ start such that `key#n` is not yet a key
of the aggregate. -/
def errsFreeSuffix (l : List (String × GoErr)) (key : String) :
    Nat → Nat → Nat
  | 0, n => n
  | fuel + 1, n =>
    if (l.lookup (key ++ "#" ++ natStr n)).isSome then
      errsFreeSuffix l key fuel (n + 1)
    else n

/-- Modelled from the spec: the key under which a new addition to the
aggregate is stored — the bare key for its first occurrence, `key#n` with
the first free n ≥ 1 for later occurrences. -/
def errsFreshKey (l : List (String × GoErr)) (key : String) : String :=
  if (l.lookup key).isNone then key
  else key ++ "#" ++ natStr (errsFreeSuffix l key (l.length + 1) 1)

/-- Modelled from the spec: adding an entry to the aggregate never
overwrites; the new entry is appended under a fresh key. -/
def errsAddEntry (l : List (String × GoErr)) (key : String) (e : GoErr) :
    List (String × GoErr) :=
  l ++ [(errsFreshKey l key, e)]

/-- Modelled from the spec: `AddError(errs, key, err)`. A nil `err` or an
empty `key` is a no-op. A nil `errs` starts a fresh aggregate; a non-
aggregate `errs` is first demoted to an aggregate entry under the key "#"
(behaviour pinned by the `AddError_Error` subtest). -/
def AddError (errsIn : Option GoErr) (key : String) (err : Option GoErr) :
    Option GoErr :=
  match err with
  | none => errsIn
  | some e =>
    if key = "" then errsIn
    else
      let base : List (String × GoErr) :=
        match errsIn with
        | none => []
        | some (.errs l) => l
        | some (.leaf m) => [("#", .leaf m)]
      some (.errs (errsAddEntry base key e))

/-- Wraps a list of aggregate entries as the `error` result of a loop that
folded `AddError` over them starting from nil: nil when no entry was
added, the aggregate otherwise. -/
def errsOpt (l : List (String × GoErr)) : Option GoErr :=
  match l with
  | [] => none
  | _ => some (.errs l)

/-! ## Dynamic values and the Rules / Selector data model -/

mutual
/-- Model of a Go `any` (interface) value as stored in raw rule input,
field bags and extraction results. `gNil` is the nil interface; `gURL`
holds a `*url.URL` (nil pointer allowed); `gDur` a `time.Duration` in
nanoseconds; `gSelList` a `[]*Selector`; `gOther` stands for any dynamic
type the code never inspects successfully. -/
inductive GoVal where
  | gNil
  | gStr (s : String)
  | gBool (b : Bool)
  | gInt (n : Int)
  | gDur (d : Int)
  | gURL (u : Option URLv)
  | gHeader (h : HeaderV)
  | gSelList (l : List Selector)
  | gList (l : List GoVal)
  | gMap (m : List (String × GoVal))
  | gOther

/-- Model of `colibri.Selector` (selector.go): a named extraction node. -/
inductive Selector where
  | mk (name expr typ : String) (all follow : Bool)
      (selectors : List Selector) (fields : List (String × GoVal))
end

def Selector.name : Selector → String
  | .mk n _ _ _ _ _ _ => n

def Selector.expr : Selector → String
  | .mk _ e _ _ _ _ _ => e

def Selector.typ : Selector → String
  | .mk _ _ t _ _ _ _ => t

def Selector.all : Selector → Bool
  | .mk _ _ _ a _ _ _ => a

def Selector.follow : Selector → Bool
  | .mk _ _ _ _ f _ _ => f

def Selector.selectors : Selector → List Selector
  | .mk _ _ _ _ _ s _ => s

def Selector.fields : Selector → List (String × GoVal)
  | .mk _ _ _ _ _ _ f => f

/-- Model of `colibri.Rules` (rules.go): one resolved request
configuration. `header = none` models a nil `http.Header`. -/
structure Rules where
  method : String
  url : Option URLv
  proxy : Option URLv
  header : Option HeaderV
  timeout : Int
  useCookies : Bool
  ignoreRobotsTxt : Bool
  delay : Int
  selectors : List Selector
  fields : List (String × GoVal)

/-- The zero `Rules{}` value. -/
def Rules.empty : Rules :=
  ⟨"", none, none, none, 0, false, false, 0, [], []⟩

/-- Recognized configuration keys (rules.go, selector.go). -/
def KeyAll : String := "All"

def KeyExpr : String := "Expr"

def KeyFollow : String := "Follow"

def KeyName : String := "Name"

def KeyType : String := "Type"

def KeyDelay : String := "Delay"

def KeyFields : String := "Fields"

def KeyHeader : String := "Header"

def KeyIgnoreRobotsTxt : String := "IgnoreRobotsTxt"

def KeyMethod : String := "Method"

def KeyProxy : String := "Proxy"

def KeySelectors : String := "Selectors"

def KeyTimeout : String := "Timeout"

def KeyUseCookies : String := "UseCookies"

def KeyURL : String := "URL"

/-- Go map lookup on a field bag. -/
def fieldsLookup (fields : List (String × GoVal)) (key : String) : Option GoVal :=
  fields.lookup key

/-- Model of the Go type assertion `v.(string)` with discarded ok flag:
the string, or the zero value "" when the dynamic type is not string. -/
def GoVal.asString : GoVal → String
  | .gStr s => s
  | _ => ""

/-- Model of `v.(*url.URL)` with discarded ok flag. -/
def GoVal.asURL : GoVal → Option URLv
  | .gURL u => u
  | _ => none

/-- Model of `v.(http.Header)` with discarded ok flag; the zero value of a
Go map type is nil, modelled as `none`. -/
def GoVal.asHeader : GoVal → Option HeaderV
  | .gHeader h => some h
  | _ => none

/-- Model of `v.(time.Duration)` with discarded ok flag. -/
def GoVal.asDuration : GoVal → Int
  | .gDur d => d
  | _ => 0

/-- Model of `v.(bool)` with discarded ok flag. -/
def GoVal.asBool : GoVal → Bool
  | .gBool b => b
  | _ => false

mutual
/-- Model of `(*Selector).Clone` (selector.go): a deep copy; the field bag
is copied entrywise into a fresh map. -/
def Selector.clone : Selector → Selector
  | .mk n e t a f sels flds => .mk n e t a f (cloneSelectors sels) flds

/-- Model of `CloneSelectors` (selector.go). -/
def cloneSelectors : List Selector → List Selector
  | [] => []
  | s :: rest => s.clone :: cloneSelectors rest
end

mutual
theorem Selector.selfClone : (s : Selector) → s.clone = s
  | .mk n e t a f sels flds => by
    simp only [Selector.clone, cloneSelectors_eq sels]

theorem cloneSelectors_eq : (l : List Selector) → cloneSelectors l = l
  | [] => rfl
  | s :: rest => by
    simp only [cloneSelectors, Selector.selfClone s, cloneSelectors_eq rest]
end

/-- Model of `(*Rules).Clone` (rules.go): a deep copy; URL and proxy are
re-resolved into independent values, the header is cloned, nested
selectors deep-cloned, the field bag copied entrywise. -/
def Rules.clone (rules : Rules) : Rules :=
  { method := rules.method
    url := rules.url.map (fun u => u.resolveReference URLv.empty)
    proxy := rules.proxy.map (fun u => u.resolveReference URLv.empty)
    header := headerClone rules.header
    timeout := rules.timeout
    useCookies := rules.useCookies
    ignoreRobotsTxt := rules.ignoreRobotsTxt
    delay := rules.delay
    selectors := cloneSelectors rules.selectors
    fields := rules.fields }

theorem resolveReference_empty (u : URLv) : u.resolveReference URLv.empty = u := by
  rcases u with ⟨s, h, p, q⟩
  simp [URLv.resolveReference, URLv.empty]

theorem map_resolveReference_empty (u : Option URLv) :
    u.map (fun x => x.resolveReference URLv.empty) = u := by
  cases u <;> simp [resolveReference_empty]

theorem Rules.selfCloneRules (rules : Rules) : rules.clone = rules := by
  rcases rules with ⟨m, u, p, h, t, uc, ir, d, sels, flds⟩
  simp [Rules.clone, headerClone_eq, cloneSelectors_eq, map_resolveReference_empty]

/-- Model of `(*Selector).Rules` (selector.go lines 118-177): the Rules
used when following this selector. Scalar pass-downs (timeout, cookie
use, robots-ignore, delay) are copied from the source up front; nested
selectors are deep-cloned from the selector; then, when the field bag is
empty, proxy and header are deep-copied from the source, and otherwise
each of method / proxy / header / timeout / cookie-use / robots-ignore /
delay is taken from the field bag when its key is present (by a type
assertion whose failure leaves the zero value) and otherwise — except for
method, which is never inherited — deep-copied or copied from the source. -/
def Selector.rules (selector : Selector) (src : Rules) : Rules :=
  let newRules : Rules :=
    { method := ""
      url := none
      proxy := none
      header := none
      timeout := src.timeout
      useCookies := src.useCookies
      ignoreRobotsTxt := src.ignoreRobotsTxt
      delay := src.delay
      selectors := cloneSelectors selector.selectors
      fields := [] }
  if selector.fields.isEmpty then
    { newRules with
      proxy := src.proxy.map (fun p => URLv.resolveReference p URLv.empty)
      header := headerClone src.header }
  else
    let newRules :=
      match fieldsLookup selector.fields KeyMethod with
      | some v => { newRules with method := v.asString }
      | none => newRules
    let newRules :=
      match fieldsLookup selector.fields KeyProxy with
      | some v => { newRules with proxy := v.asURL }
      | none =>
        { newRules with proxy := src.proxy.map (fun p => URLv.resolveReference p URLv.empty) }
    let newRules :=
      match fieldsLookup selector.fields KeyHeader with
      | some v => { newRules with header := v.asHeader }
      | none => { newRules with header := headerClone src.header }
    let newRules :=
      match fieldsLookup selector.fields KeyTimeout with
      | some v => { newRules with timeout := v.asDuration }
      | none => newRules
    let newRules :=
      match fieldsLookup selector.fields KeyUseCookies with
      | some v => { newRules with useCookies := v.asBool }
      | none => newRules
    let newRules :=
      match fieldsLookup selector.fields KeyIgnoreRobotsTxt with
      | some v => { newRules with ignoreRobotsTxt := v.asBool }
      | none => newRules
    let newRules :=
      match fieldsLookup selector.fields KeyDelay with
      | some v => { newRules with delay := v.asDuration }
      | none => newRules
    newRules

/-! ## Orchestrator: Colibri.Do (colibri.go) -/

/-- Default User-Agent (colibri.go). -/
def DefaultUserAgent : String := "colibri/0.1"

/-- Model of a fetched resource handle (the `Response` interface): its
resolved URL and its `Extract` wrapper, which re-enters the orchestrator;
`extract` returns the extraction output and an error, the two results of
`Extract` that `followSelector` consumes. -/
structure Response where
  url : URLv
  extract : Rules → GoVal × Option GoErr

/-- Tags for the collaborator invocations `Colibri.Do` performs, in
order. -/
inductive CallTag where
  | robotsIsAllowed
  | delayWait
  | delayDone
  | delayStamp
  | clientDo
  deriving DecidableEq, Repr

/-- Model of the `Colibri` structure (colibri.go): the transport
collaborator is its `Do` behaviour (nil when no client is configured),
the pacing collaborator is presence-only (its effect is on real time),
the robots collaborator is its `IsAllowed` behaviour (nil result =
allowed). The Parser collaborator is not needed by the claims. -/
structure Colibri where
  client : Option (Rules → Option Response × Option GoErr)
  delay : Bool
  robotsTxt : Option (Rules → Option GoErr)

/-- Model of `strings.TrimSpace` (ASCII whitespace; the Unicode space
classes the code never relies on are abstracted away). -/
def isSpaceChar (c : Char) : Bool :=
  c = ' ' ∨ c = '\t' ∨ c = '\n' ∨ c = '\r'

/-- Strip leading and trailing whitespace. -/
def trimSpace (s : String) : String :=
  String.mk (((s.data.dropWhile isSpaceChar).reverse.dropWhile isSpaceChar).reverse)

/-- The header-defaulting prefix of `Colibri.Do` (colibri.go lines
127-137): a nil header is replaced by an empty one, and a User-Agent that
is absent or blank after trimming is set to the default. These are
in-place mutations of the caller's Rules. -/
def headerDefault (r : Rules) : Rules :=
  let r1 := if r.header.isNone then { r with header := some [] } else r
  if trimSpace (headerGet r1.header "User-Agent") = "" then
    { r1 with header := headerSet r1.header "User-Agent" DefaultUserAgent }
  else r1

/-- The pacing + transport phase of `Colibri.Do` (colibri.go lines
146-156): wait when pacing is configured and a positive delay requested,
invoke the transport, stamp the response URL, release the pacing token on
exit (deferred `Done`). -/
def doFetch (clientDo : Rules → Option Response × Option GoErr)
    (delayPresent : Bool) (r : Rules) :
    (Option Response × Option GoErr) × List CallTag :=
  let waitTrace := if delayPresent ∧ 0 < r.delay then [CallTag.delayWait] else []
  let (resp, err) := clientDo r
  let stampTrace := if delayPresent ∧ resp.isSome then [CallTag.delayStamp] else []
  let doneTrace := if delayPresent ∧ 0 < r.delay then [CallTag.delayDone] else []
  ((resp, err), waitTrace ++ [CallTag.clientDo] ++ stampTrace ++ doneTrace)

/-- Model of `(*Colibri).Do` (colibri.go lines 116-157). Returns the
final state of the caller's Rules argument (Go mutates it through the
pointer), the `(Response, error)` result, and the trace of collaborator
invocations. The `recover` wrapper is not modelled: collaborators are
total functions, so no fault can escape. -/
def Colibri.Do (c : Colibri) (rules : Option Rules) :
    Option Rules × (Option Response × Option GoErr) × List CallTag :=
  match c.client with
  | none => (rules, (none, some errClientIsNil), [])
  | some clientDo =>
    match rules with
    | none => (none, (none, some errRulesIsNil), [])
    | some r0 =>
      let r := headerDefault r0
      match c.robotsTxt, r.ignoreRobotsTxt with
      | some isAllowed, false =>
        match isAllowed r with
        | some e => (some r, (none, some e), [CallTag.robotsIsAllowed])
        | none =>
          let (res, tr) := doFetch clientDo c.delay r
          (some r, res, CallTag.robotsIsAllowed :: tr)
      | _, _ =>
        let (res, tr) := doFetch clientDo c.delay r
        (some r, res, tr)

/-! ## Extraction engine (package parsers) -/

/-- Model of the `Element` interface (parsers): a content-format-agnostic
node. `find` may succeed with no match (`.ok none`), mirroring the Go
`(nil, nil)` return. -/
inductive Element where
  | mk (findE : String → String → Except GoErr (Option Element))
      (findAllE : String → String → Except GoErr (List Element))
      (valueE : GoVal)

def Element.find : Element → String → String → Except GoErr (Option Element)
  | .mk f _ _ => f

def Element.findAll : Element → String → String → Except GoErr (List Element)
  | .mk _ f _ => f

def Element.value : Element → GoVal
  | .mk _ _ v => v

mutual
/-- Approximate model of `fmt.Sprintf("%v", x)`, used only to key
URL-conversion failures in the aggregate. Faithful for the dynamic types
the engine actually formats (strings, lists, nil). -/
def valFmt : GoVal → String
  | .gNil => "<nil>"
  | .gStr s => s
  | .gBool b => if b then "true" else "false"
  | .gInt n => toString n
  | .gDur d => toString d
  | .gURL none => "<nil>"
  | .gURL (some u) => u.render
  | .gHeader _ => "map[header]"
  | .gSelList _ => "[selectors]"
  | .gList l => "[" ++ String.intercalate " " (valFmtList l) ++ "]"
  | .gMap m => "map[" ++ String.intercalate " " (valFmtEntries m) ++ "]"
  | .gOther => "<other>"

def valFmtList : List GoVal → List String
  | [] => []
  | v :: rest => valFmt v :: valFmtList rest

def valFmtEntries : List (String × GoVal) → List String
  | [] => []
  | (k, v) :: rest => (k ++ ":" ++ valFmt v) :: valFmtEntries rest
end

/-- Model of `colibri.ToURL` (convFunc.go): a string is parsed as a URL,
anything else fails with `ErrMustBeString`. -/
def ToURL (value : GoVal) : Except GoErr URLv :=
  match value with
  | .gStr s => .ok (parseURL s)
  | _ => .error errMustBeString

/-- The URL-conversion loop of `followSelector` (parsers, lines 110-121):
each raw value is converted, failures are keyed by the value's `%v`
rendering, and relative URLs are resolved against the response URL. -/
def followConvert (respURL : URLv) (acc : List URLv) (errsAcc : Option GoErr) :
    List GoVal → List URLv × Option GoErr
  | [] => (acc, errsAcc)
  | raw :: rest =>
    match ToURL raw with
    | .error e => followConvert respURL acc (AddError errsAcc (valFmt raw) (some e)) rest
    | .ok u =>
      let u2 := if u.isAbs then u else URLv.resolveReference respURL u
      followConvert respURL (acc ++ [u2]) errsAcc rest

/-- The fetch+extract loop of `followSelector` (parsers, lines 128-140):
each URL gets a clone of the follow rules with that URL as target;
failures are keyed by the URL string; successes populate the result
mapping. -/
def followFetch (rules : Rules) (resp : Response) (acc : List (String × GoVal))
    (errsAcc : Option GoErr) : List URLv → List (String × GoVal) × Option GoErr
  | [] => (acc, errsAcc)
  | u :: rest =>
    let cRules := { rules.clone with url := some u }
    let (found, err) := resp.extract cRules
    match err with
    | some e => followFetch rules resp acc (AddError errsAcc u.render (some e)) rest
    | none => followFetch rules resp (listUpsert acc u.render found) errsAcc rest

/-- Model of `followSelector` (parsers, lines 103-144). If any raw value
fails URL conversion the function returns a nil result with the
conversion errors, before any fetch; otherwise it fetches+extracts every
URL, collecting per-URL failures. The nil Go map returned on the error
path is modelled as `gNil`. -/
def followSelector (src : Rules) (resp : Response) (selector : Selector)
    (rawURL : List GoVal) : GoVal × Option GoErr :=
  let conv := followConvert resp.url [] none rawURL
  if conv.2.isSome then (GoVal.gNil, conv.2)
  else
    let rules := selector.rules src
    let fetched := followFetch rules resp [] none conv.1
    (GoVal.gMap fetched.1, fetched.2)

mutual
/-- Size of a selector tree, for the termination of the engine. -/
def selSize : Selector → Nat
  | .mk _ _ _ _ _ sels _ => 1 + selsSize sels

/-- Size of a selector forest, for the termination of the engine. -/
def selsSize : List Selector → Nat
  | [] => 0
  | s :: rest => 1 + selSize s + selsSize rest
end

theorem selSize_pos (s : Selector) : 0 < selSize s := by
  cases s
  simp [selSize]

theorem selsSize_selectors_lt (s : Selector) : selsSize s.selectors < selSize s := by
  cases s
  simp [selSize, Selector.selectors]

def optSelSize : Option Selector → Nat
  | none => 0
  | some s => selSize s

def optSelsSize : Option (List Selector) → Nat
  | none => 0
  | some l => selsSize l

mutual
/-- Model of `findSelectors` (parsers, lines 83-101): evaluates a sibling
list against a parent element; a failing sibling is keyed by its name in
the aggregate and excluded from the result mapping. -/
def findSelectors (src : Rules) (resp : Option Response)
    (selectors : Option (List Selector)) (parent : Option Element) :
    GoVal × Option GoErr :=
  match resp, selectors, parent with
  | some respV, some sels, some parentE =>
    let r := findSelectorsLoop src respV parentE [] none sels
    (GoVal.gMap r.1, r.2)
  | _, _, _ => (GoVal.gNil, none)
termination_by (optSelsSize selectors, 5, 0)
decreasing_by
  simp_wf
  simp [optSelsSize, Prod.lex_def]
  all_goals omega

/-- The sibling loop of `findSelectors`, with explicit result and error
accumulators. -/
def findSelectorsLoop (src : Rules) (resp : Response) (parent : Element)
    (acc : List (String × GoVal)) (errsAcc : Option GoErr) :
    List Selector → List (String × GoVal) × Option GoErr
  | [] => (acc, errsAcc)
  | sel :: rest =>
    let r := findSelector src resp (some sel) (some parent)
    match r.2 with
    | some e =>
      findSelectorsLoop src resp parent acc (AddError errsAcc sel.name (some e)) rest
    | none =>
      findSelectorsLoop src resp parent (listUpsert acc sel.name r.1) errsAcc rest
termination_by sels => (selsSize sels, 4, 0)
decreasing_by
  all_goals simp_wf
  all_goals simp [optSelSize, selsSize, Prod.lex_def]
  all_goals omega

/-- Model of `findSelector` (parsers, lines 179-203): single-selector
evaluation; `All` dispatches to `findAllSelector`; otherwise Find, then
follow / recurse / value. -/
def findSelector (src : Rules) (resp : Response) (selector : Option Selector)
    (parent : Option Element) : GoVal × Option GoErr :=
  match selector, parent with
  | some sel, some parentE =>
    if sel.all then findAllSelector src resp sel parentE
    else
      match parentE.find sel.expr sel.typ with
      | .error e => (GoVal.gNil, some e)
      | .ok none => (GoVal.gNil, none)
      | .ok (some child) =>
        if sel.follow then followSelector src resp sel [child.value]
        else if 0 < sel.selectors.length then
          findSelectors src (some resp) (some sel.selectors) (some child)
        else (child.value, none)
  | _, _ => (GoVal.gNil, none)
termination_by (optSelSize selector, 3, 0)
decreasing_by
  all_goals simp [optSelSize, optSelsSize, Prod.lex_def]
  all_goals try omega
  all_goals (have h1 := selsSize_selectors_lt sel; omega)

/-- Model of `findAllSelector` (parsers, lines 146-177): FindAll, then
per-child sub-extraction (non-follow with nested selectors), or value
collection plus optional following. -/
def findAllSelector (src : Rules) (resp : Response) (sel : Selector)
    (parent : Element) : GoVal × Option GoErr :=
  match parent.findAll sel.expr sel.typ with
  | .error e => (GoVal.gNil, some e)
  | .ok children =>
    if sel.follow = false ∧ 0 < sel.selectors.length then
      let r := findAllNestedLoop src resp sel 0 [] none children
      (GoVal.gList r.1, r.2)
    else
      let values := children.map Element.value
      if sel.follow then followSelector src resp sel values
      else (GoVal.gList values, none)
termination_by (selSize sel, 2, 0)
decreasing_by
  simp_wf
  simp [Prod.lex_def]
  all_goals omega

/-- The per-child sub-extraction loop of `findAllSelector`: a failure for
child index i is keyed `"<name>#<i>"`; successes are appended in match
order. -/
def findAllNestedLoop (src : Rules) (resp : Response) (sel : Selector)
    (i : Nat) (acc : List GoVal) (errsAcc : Option GoErr) :
    List Element → List GoVal × Option GoErr
  | [] => (acc, errsAcc)
  | child :: rest =>
    let r := findSelectors src (some resp) (some sel.selectors) (some child)
    match r.2 with
    | some e =>
      findAllNestedLoop src resp sel (i + 1) acc
        (AddError errsAcc (sel.name ++ "#" ++ natStr i) (some e)) rest
    | none => findAllNestedLoop src resp sel (i + 1) (acc ++ [r.1]) errsAcc rest
termination_by children => (selSize sel, 1, children.length)
decreasing_by
  all_goals simp_wf
  all_goals simp [optSelsSize, Prod.lex_def]
  all_goals try omega
  all_goals (have h1 := selsSize_selectors_lt sel; omega)
end

/-! ## Raw-value conversion (convFunc.go) and selector construction
(selector.go, rules.go) -/

/-- Model of `strconv.ParseBool`: accepts 1/t/T/TRUE/true/True and
0/f/F/FALSE/false/False; anything else is an error (zero value false). -/
def parseBool (s : String) : Bool × Option GoErr :=
  if s = "1" ∨ s = "t" ∨ s = "T" ∨ s = "true" ∨ s = "TRUE" ∨ s = "True" then
    (true, none)
  else if s = "0" ∨ s = "f" ∨ s = "F" ∨ s = "false" ∨ s = "FALSE" ∨ s = "False" then
    (false, none)
  else (false, some (.leaf ("invalid syntax " ++ s)))

/-- Model of `toBool` (convFunc.go): nil converts to false; strings are
parsed; integer kinds (including `time.Duration`, an int64) convert to
"≠ 0"; other kinds fail. Floating-point inputs are outside the model. -/
def toBool (value : GoVal) : Bool × Option GoErr :=
  match value with
  | .gNil => (false, none)
  | .gStr s => parseBool s
  | .gBool b => (b, none)
  | .gInt n => (n != 0, none)
  | .gDur d => (d != 0, none)
  | _ => (false, some errMustBeConvBool)

/-- Minimal model of `time.ParseDuration`: a decimal digit string followed
by one unit suffix among ns/us/ms/s/m/h. -/
def parseGoDuration (s : String) : Int × Option GoErr :=
  let unitTable : List (String × Int) :=
    [("ns", 1), ("us", 1000), ("ms", 1000000), ("s", 1000000000),
      ("m", 60000000000), ("h", 3600000000000)]
  match unitTable.find? (fun e => s.endsWith e.1) with
  | some (unit, mult) =>
    let digits := s.dropRight unit.length
    if digits ≠ "" ∧ digits.all Char.isDigit then
      (mult * (digits.toNat?.getD 0 : Int), none)
    else (0, some (.leaf ("invalid duration " ++ s)))
  | none => (0, some (.leaf ("invalid duration " ++ s)))

/-- Model of `toDuration` (convFunc.go): nil converts to 0; strings are
parsed; integer kinds (including `time.Duration`) are multiplied by
`time.Millisecond`; other kinds fail. -/
def toDuration (value : GoVal) : Int × Option GoErr :=
  match value with
  | .gNil => (0, none)
  | .gStr s => parseGoDuration s
  | .gInt n => (n * 1000000, none)
  | .gDur d => (d * 1000000, none)
  | _ => (0, some errMustBeConvDuration)

/-- Append one value under a header key (model of `http.Header.Add`). -/
def headerAddL (l : HeaderV) (key value : String) : HeaderV :=
  match l with
  | [] => [(key, [value])]
  | (k, vs) :: rest =>
    if k = key then (k, vs ++ [value]) :: rest
    else (k, vs) :: headerAddL rest key value

/-- Add a list of values under a header key, in order. -/
def headerAddAll (header : HeaderV) (key : String) : List String → HeaderV
  | [] => header
  | v :: rest => headerAddAll (headerAddL header key v) key rest

/-- Recognize a Go `[]string` dynamic value: a list all of whose elements
are strings. -/
def asStringList : List GoVal → Option (List String)
  | [] => some []
  | .gStr s :: rest => (asStringList rest).map (fun l => s :: l)
  | _ => none

/-- The entry loop of `toHeader` (convFunc.go): a string value is Set, a
[]string value is Added element-wise, anything else stops with
`ErrInvalidHeader` and the header built so far. -/
def toHeaderEntries (header : HeaderV) : List (String × GoVal) → HeaderV × Option GoErr
  | [] => (header, none)
  | (k, v) :: rest =>
    match v with
    | .gStr s => toHeaderEntries (listUpsert header k [s]) rest
    | .gList l =>
      match asStringList l with
      | some vs => toHeaderEntries (headerAddAll header k vs) rest
      | none => (header, some errInvalidHeader)
    | _ => (header, some errInvalidHeader)

/-- Model of `toHeader` (convFunc.go): nil converts to an empty header;
a map is converted entrywise; a non-map fails. An `http.Header` value is
itself a string-keyed map of []string and converts to itself. -/
def toHeader (value : GoVal) : HeaderV × Option GoErr :=
  match value with
  | .gNil => ([], none)
  | .gMap m => toHeaderEntries [] m
  | .gHeader h => (h, none)
  | _ => ([], some errInvalidHeader)

/-- The Go test `value == nil` on an interface value. -/
def GoVal.isGNil : GoVal → Bool
  | .gNil => true
  | _ => false

/-- Replace a selector's name (`selector.Name = name`). -/
def Selector.setName : Selector → String → Selector
  | .mk _ e t a f sels flds, n => .mk n e t a f sels flds

/-- Outcome of the reflective field assignment in `processRaw`
(rules.go lines 174-195) for one raw key. -/
inductive AssignResult where
  | assigned (sel : Selector)
  | notAssignable
  | toBag

/-- Model of the reflective assignment of `processRaw` specialized to
`Selector`: a key naming an exported Selector field assigns when the
(converted) value's dynamic type is assignable to the field's type, and
is `NotAssignable` otherwise; any other key goes to the Fields bag. -/
def assignSelectorField (sel : Selector) (key : String) (v : GoVal) : AssignResult :=
  match sel with
  | .mk n e t a f sels flds =>
    if key = KeyName then
      match v with
      | .gStr s => .assigned (.mk s e t a f sels flds)
      | _ => .notAssignable
    else if key = KeyExpr then
      match v with
      | .gStr s => .assigned (.mk n s t a f sels flds)
      | _ => .notAssignable
    else if key = KeyType then
      match v with
      | .gStr s => .assigned (.mk n e s a f sels flds)
      | _ => .notAssignable
    else if key = KeyAll then
      match v with
      | .gBool b => .assigned (.mk n e t b f sels flds)
      | _ => .notAssignable
    else if key = KeyFollow then
      match v with
      | .gBool b => .assigned (.mk n e t a b sels flds)
      | _ => .notAssignable
    else if key = KeySelectors then
      match v with
      | .gSelList l => .assigned (.mk n e t a f l flds)
      | _ => .notAssignable
    else if key = KeyFields then
      match v with
      | .gMap m => .assigned (.mk n e t a f sels m)
      | _ => .notAssignable
    else .toBag

/-- Insert into a selector's field bag (`SetMapIndex`, an upsert). -/
def Selector.bagInsert : Selector → String → GoVal → Selector
  | .mk n e t a f sels flds, key, v => .mk n e t a f sels (listUpsert flds key v)

mutual
/-- Size of a dynamic value, for the termination of selector
construction; only map values are ever recursed into. -/
def goValSize : GoVal → Nat
  | .gMap m => 1 + entriesSize m
  | _ => 1

/-- Size of a map's entry list. -/
def entriesSize : List (String × GoVal) → Nat
  | [] => 0
  | e :: rest => 1 + goValSize e.2 + entriesSize rest
end

theorem entriesSize_filter_le (p : String × GoVal → Bool)
    (l : List (String × GoVal)) : entriesSize (l.filter p) ≤ entriesSize l := by
  induction l with
  | nil => simp [List.filter]
  | cons e rest ih =>
    by_cases h : p e
    · simp [List.filter, h, entriesSize]
      omega
    · simp [List.filter, h, entriesSize]
      omega

mutual
/-- Model of `DefaultConvFunc` (convFunc.go), the conversion function the
repository instantiates selector construction with. The source passes the
conversion function as a parameter; it is specialized here to
`DefaultConvFunc` (its only value in the repository) so that the mutual
recursion through `Selectors` is structural. -/
def DefaultConvFunc (key : String) (rawValue : GoVal) : GoVal × Option GoErr :=
  if key = KeyURL ∨ key = KeyProxy then
    match ToURL rawValue with
    | .ok u => (.gURL (some u), none)
    | .error e => (.gURL none, some e)
  else if key = KeyIgnoreRobotsTxt ∨ key = KeyFollow ∨ key = KeyUseCookies ∨ key = KeyAll then
    let r := toBool rawValue
    (.gBool r.1, r.2)
  else if key = KeyDelay ∨ key = KeyTimeout then
    let r := toDuration rawValue
    (.gDur r.1, r.2)
  else if key = KeyHeader then
    let r := toHeader rawValue
    (.gHeader r.1, r.2)
  else if key = KeySelectors then
    let r := newSelectors rawValue
    (.gSelList r.1, r.2)
  else (rawValue, none)
termination_by (goValSize rawValue, 1)
decreasing_by
  simp_wf
  simp [Prod.lex_def]

/-- Model of `newSelector` (selector.go lines 60-83): an empty-string raw
value yields neither a selector nor an error; a non-empty string becomes
the expression; a map is destructured by `processRaw` after its Name key
is deleted; any other dynamic type fails with `ErrInvalidSelector`. The
pool acquisition yields a cleared selector. -/
def newSelector (name : String) (rawSelector : GoVal) :
    Option Selector × Option GoErr :=
  match rawSelector with
  | .gStr s =>
    if s = "" then (none, none)
    else (some (.mk name s "" false false [] []), none)
  | .gMap m =>
    let r := processRawSelector (.mk "" "" "" false false [] []) none
      (m.filter (fun e => e.1 != KeyName))
    (some (r.1.setName name), r.2)
  | _ => (none, some errInvalidSelector)
termination_by (goValSize rawSelector, 0)
decreasing_by
  simp_wf
  apply Prod.Lex.left
  simp [goValSize]
  exact Nat.lt_of_le_of_lt (entriesSize_filter_le _ _) (by omega)

/-- Model of `newSelectors` (selector.go lines 85-112): nil yields
nothing; a non-map fails with `ErrInvalidSelectors`; a map builds the
sibling list entrywise. -/
def newSelectors (rawSelectors : GoVal) : List Selector × Option GoErr :=
  match rawSelectors with
  | .gNil => ([], none)
  | .gMap m => newSelectorsLoop [] none m
  | _ => ([], some errInvalidSelectors)
termination_by (goValSize rawSelectors, 0)
decreasing_by
  simp_wf
  apply Prod.Lex.left
  simp [goValSize]

/-- The entry loop of `newSelectors`: entries with an empty name or a nil
value are skipped; a failing entry is keyed by its name in the aggregate;
an entry yielding a selector appends it. -/
def newSelectorsLoop (acc : List Selector) (errsAcc : Option GoErr) :
    List (String × GoVal) → List Selector × Option GoErr
  | [] => (acc, errsAcc)
  | (name, value) :: rest =>
    if name = "" ∨ value.isGNil then newSelectorsLoop acc errsAcc rest
    else
      let r := newSelector name value
      match r.2 with
      | some e => newSelectorsLoop acc (AddError errsAcc name (some e)) rest
      | none =>
        match r.1 with
        | some sel => newSelectorsLoop (acc ++ [sel]) errsAcc rest
        | none => newSelectorsLoop acc errsAcc rest
termination_by l => (entriesSize l, 0)
decreasing_by
  all_goals simp_wf
  all_goals apply Prod.Lex.left
  all_goals simp [entriesSize, goValSize]
  all_goals omega

/-- Model of `processRaw` (rules.go lines 155-198) specialized to a
`Selector` output and the default conversion function: each raw entry is
converted (a conversion failure is keyed in the aggregate and skipped),
then assigned to the named field or placed in the Fields bag. -/
def processRawSelector (sel : Selector) (errsAcc : Option GoErr) :
    List (String × GoVal) → Selector × Option GoErr
  | [] => (sel, errsAcc)
  | (key, value) :: rest =>
    let conv := DefaultConvFunc key value
    match conv.2 with
    | some e => processRawSelector sel (AddError errsAcc key (some e)) rest
    | none =>
      match assignSelectorField sel key conv.1 with
      | .assigned sel2 => processRawSelector sel2 errsAcc rest
      | .notAssignable =>
        processRawSelector sel (AddError errsAcc key (some errNotAssignable)) rest
      | .toBag => processRawSelector (sel.bagInsert key conv.1) errsAcc rest
termination_by l => (entriesSize l, 0)
decreasing_by
  all_goals simp_wf
  all_goals apply Prod.Lex.left
  all_goals simp [entriesSize, goValSize]
  all_goals omega
end

/-! ## Lemmas about the aggregator -/

theorem strData_append (s t : String) : (s ++ t).data = s.data ++ t.data := rfl

theorem strExt {s t : String} (h : s.data = t.data) : s = t := by
  cases s
  cases t
  exact congrArg String.mk (by simpa using h)

theorem natStr_data_ne_nil (n : Nat) : (natStr n).data ≠ [] := by
  rw [natStr_data]
  split
  · simp
  · rename_i hn
    match hm : n with
    | 0 => exact absurd rfl hn
    | m + 1 =>
      rw [natDigitsRev]
      simp

theorem hashKey_ne_key (key : String) (n : Nat) : key ++ "#" ++ natStr n ≠ key := by
  intro h
  have hd := congrArg (fun s => s.data.length) h
  simp only [strData_append, List.length_append] at hd
  have hne := natStr_data_ne_nil n
  have : 0 < (natStr n).data.length := List.length_pos.mpr hne
  have hhash : ("#" : String).data.length = 1 := rfl
  omega

theorem hashKey_inj (key : String) {a b : Nat}
    (h : key ++ "#" ++ natStr a = key ++ "#" ++ natStr b) : a = b := by
  apply natStr_injective
  apply strExt
  have hd := congrArg String.data h
  rw [strData_append (key ++ "#") (natStr a), strData_append (key ++ "#") (natStr b)] at hd
  exact List.append_cancel_left hd

theorem lookup_isSome_iff {β : Type} (l : List (String × β)) (k : String) :
    (List.lookup k l).isSome = true ↔ ∃ p ∈ l, p.1 = k := by
  induction l with
  | nil => simp [List.lookup]
  | cons e rest ih =>
    rcases e with ⟨k2, v⟩
    by_cases h : k2 = k
    · subst h
      simp [List.lookup]
    · have hne : (k == k2) = false := beq_false_of_ne (fun hh => h hh.symm)
      simp [List.lookup, hne, ih, h]

theorem lookupAppend_some {β : Type} (l1 l2 : List (String × β)) (k : String)
    (v : β) (h : List.lookup k l1 = some v) :
    List.lookup k (l1 ++ l2) = some v := by
  induction l1 with
  | nil => simp [List.lookup] at h
  | cons e rest ih =>
    rcases e with ⟨k2, w⟩
    by_cases hk : k2 = k
    · subst hk
      simp [List.lookup] at h ⊢
      exact h
    · have hne : (k == k2) = false := beq_false_of_ne (fun hh => hk hh.symm)
      simp only [List.lookup, hne, List.cons_append] at h ⊢
      exact ih h

theorem lookupAppend_none {β : Type} (l1 l2 : List (String × β)) (k : String)
    (h : List.lookup k l1 = none) :
    List.lookup k (l1 ++ l2) = List.lookup k l2 := by
  induction l1 with
  | nil => simp
  | cons e rest ih =>
    rcases e with ⟨k2, w⟩
    by_cases hk : k2 = k
    · subst hk
      simp [List.lookup] at h
    · have hne : (k == k2) = false := beq_false_of_ne (fun hh => hk hh.symm)
      simp only [List.lookup, hne, List.cons_append] at h ⊢
      exact ih h

theorem errsFreeSuffix_ge (l : List (String × GoErr)) (key : String) :
    ∀ fuel start, start ≤ errsFreeSuffix l key fuel start ∧
      errsFreeSuffix l key fuel start ≤ start + fuel := by
  intro fuel
  induction fuel with
  | zero => intro start; simp [errsFreeSuffix]
  | succ f ih =>
    intro start
    rw [errsFreeSuffix]
    split
    · have := ih (start + 1)
      omega
    · omega

theorem errsFreeSuffix_taken_below (l : List (String × GoErr)) (key : String) :
    ∀ fuel start m, start ≤ m → m < errsFreeSuffix l key fuel start →
      (List.lookup (key ++ "#" ++ natStr m) l).isSome = true := by
  intro fuel
  induction fuel with
  | zero =>
    intro start m h1 h2
    simp [errsFreeSuffix] at h2
    omega
  | succ f ih =>
    intro start m h1 h2
    rw [errsFreeSuffix] at h2
    by_cases htaken : (List.lookup (key ++ "#" ++ natStr start) l).isSome = true
    · rw [if_pos htaken] at h2
      by_cases hm : m = start
      · subst hm; exact htaken
      · exact ih (start + 1) m (by omega) h2
    · rw [if_neg htaken] at h2
      omega

theorem errsFreeSuffix_free (l : List (String × GoErr)) (key : String) :
    ∀ fuel start, errsFreeSuffix l key fuel start < start + fuel →
      (List.lookup (key ++ "#" ++ natStr (errsFreeSuffix l key fuel start)) l).isSome = false := by
  intro fuel
  induction fuel with
  | zero =>
    intro start h
    simp [errsFreeSuffix] at h
  | succ f ih =>
    intro start h
    rw [errsFreeSuffix] at h ⊢
    by_cases htaken : (List.lookup (key ++ "#" ++ natStr start) l).isSome = true
    · rw [if_pos htaken] at h ⊢
      exact ih (start + 1) (by omega)
    · rw [if_neg htaken] at h ⊢
      simp only [Bool.not_eq_true] at htaken
      exact htaken

theorem exists_free_suffix (l : List (String × GoErr)) (key : String) :
    ∃ m, 1 ≤ m ∧ m ≤ l.length + 1 ∧
      (List.lookup (key ++ "#" ++ natStr m) l).isSome = false := by
  by_contra hcon
  push_neg at hcon
  have htakenAll : ∀ m, 1 ≤ m → m ≤ l.length + 1 →
      (List.lookup (key ++ "#" ++ natStr m) l).isSome = true := by
    intro m h1 h2
    have := hcon m h1 h2
    simpa using this
  have hnd : ((List.range (l.length + 1)).map
      (fun i => key ++ "#" ++ natStr (i + 1))).Nodup := by
    apply List.Nodup.map
    · intro a b hab
      have := hashKey_inj key hab
      omega
    · exact List.nodup_range _
  have hsub : ((List.range (l.length + 1)).map
      (fun i => key ++ "#" ++ natStr (i + 1))) ⊆ l.map Prod.fst := by
    intro x hx
    rcases List.mem_map.mp hx with ⟨i, hi, rfl⟩
    have hir := List.mem_range.mp hi
    have htk := htakenAll (i + 1) (by omega) (by omega)
    rcases (lookup_isSome_iff l (key ++ "#" ++ natStr (i + 1))).mp htk with ⟨p, hp, hpk⟩
    exact List.mem_map.mpr ⟨p, hp, hpk⟩
  have hlen := (List.subperm_of_subset hnd hsub).length_le
  simp only [List.length_map, List.length_range] at hlen
  omega

theorem errsFreshKey_fresh (l : List (String × GoErr)) (key : String) :
    List.lookup (errsFreshKey l key) l = none := by
  unfold errsFreshKey
  split
  · rename_i hnone
    exact Option.isNone_iff_eq_none.mp hnone
  · obtain ⟨m, hm1, hm2, hmfree⟩ := exists_free_suffix l key
    have hle := errsFreeSuffix_ge l key (l.length + 1) 1
    by_cases hr : errsFreeSuffix l key (l.length + 1) 1 < 1 + (l.length + 1)
    · have hfree := errsFreeSuffix_free l key (l.length + 1) 1 hr
      exact Option.not_isSome_iff_eq_none.mp (by simp [hfree])
    · exfalso
      have htk := errsFreeSuffix_taken_below l key (l.length + 1) 1 m hm1 (by omega)
      rw [hmfree] at htk
      exact absurd htk (by simp)

theorem addError_nilErr (es : Option GoErr) (key : String) :
    AddError es key none = es := rfl

theorem addError_emptyKey (es : Option GoErr) (e : GoErr) :
    AddError es "" (some e) = es := by
  simp [AddError]

theorem addError_errs (l : List (String × GoErr)) (key : String) (e : GoErr)
    (hk : key ≠ "") :
    AddError (some (.errs l)) key (some e) =
      some (.errs (l ++ [(errsFreshKey l key, e)])) := by
  simp [AddError, hk, errsAddEntry]

theorem addError_noneStart (key : String) (e : GoErr) (hk : key ≠ "") :
    AddError none key (some e) = some (.errs [(key, e)]) := by
  simp [AddError, hk, errsAddEntry, errsFreshKey, List.lookup]

theorem addError_bare (l : List (String × GoErr)) (key : String) (e : GoErr)
    (hk : key ≠ "") (hfresh : List.lookup key l = none) :
    AddError (errsOpt l) key (some e) = errsOpt (l ++ [(key, e)]) := by
  cases l with
  | nil => simp [errsOpt, addError_noneStart _ _ hk]
  | cons p rest =>
    have hfk : errsFreshKey (p :: rest) key = key := by
      unfold errsFreshKey
      rw [if_pos (by simp [hfresh])]
    rw [show errsOpt (p :: rest) = some (.errs (p :: rest)) from rfl,
      addError_errs _ _ _ hk, hfk]
    rfl

/-- Folding `AddError` over a list of errors under one fixed key, in
order of addition. -/
def addAllSameKey (es : Option GoErr) (key : String) : List GoErr → Option GoErr
  | [] => es
  | e :: rest => addAllSameKey (AddError es key (some e)) key rest

/-- The entries that successive additions under one key are expected to
produce: the occurrence at index 0 keeps the bare key, the occurrence at
index i ≥ 1 is stored under `key#i`. -/
def expectKeys (key : String) : List GoErr → Nat → List (String × GoErr)
  | [], _ => []
  | e :: rest, start =>
    ((if start = 0 then key else key ++ "#" ++ natStr start), e) ::
      expectKeys key rest (start + 1)

theorem expectKeys_append (key : String) (a b : List GoErr) :
    ∀ s, expectKeys key (a ++ b) s =
      expectKeys key a s ++ expectKeys key b (s + a.length) := by
  induction a with
  | nil => intro s; simp [expectKeys]
  | cons e rest ih =>
    intro s
    simp only [List.cons_append, expectKeys, List.append_eq]
    rw [ih (s + 1)]
    simp only [List.length_cons]
    have harith : s + 1 + rest.length = s + (rest.length + 1) := by omega
    rw [harith]

theorem expectKeys_lookup_key_pos (key : String) (done : List GoErr) :
    ∀ s, 1 ≤ s → List.lookup key (expectKeys key done s) = none := by
  induction done with
  | nil => intro s _; simp [expectKeys]
  | cons e rest ih =>
    intro s hs
    have hne : (key == key ++ "#" ++ natStr s) = false :=
      beq_false_of_ne (fun hh => hashKey_ne_key key s hh.symm)
    simp only [expectKeys, if_neg (by omega : ¬ s = 0), List.lookup, hne]
    exact ih (s + 1) (by omega)

theorem expectKeys_lookup_key_zero (key : String) (e : GoErr) (rest : List GoErr) :
    List.lookup key (expectKeys key (e :: rest) 0) = some e := by
  simp [expectKeys, List.lookup]

theorem expectKeys_lookup_hash (key : String) (done : List GoErr) :
    ∀ s n, 1 ≤ n →
      ((List.lookup (key ++ "#" ++ natStr n) (expectKeys key done s)).isSome = true ↔
        (max s 1 ≤ n ∧ n < s + done.length)) := by
  induction done with
  | nil =>
    intro s n hn
    simp [expectKeys]
    omega
  | cons e rest ih =>
    intro s n hn
    by_cases hs : s = 0
    · subst hs
      have hne : (key ++ "#" ++ natStr n == key) = false :=
        beq_false_of_ne (hashKey_ne_key key n)
      have hrw : expectKeys key (e :: rest) 0 = (key, e) :: expectKeys key rest 1 := by
        simp [expectKeys]
      rw [hrw]
      simp only [List.lookup, hne]
      rw [ih 1 n hn]
      simp only [List.length_cons]
      omega
    · have hrw : expectKeys key (e :: rest) s =
          (key ++ "#" ++ natStr s, e) :: expectKeys key rest (s + 1) := by
        simp [expectKeys, hs]
      rw [hrw]
      by_cases hns : n = s
      · subst hns
        simp only [List.lookup, beq_self_eq_true]
        simp only [Option.isSome_some, true_iff, List.length_cons]
        omega
      · have hne : (key ++ "#" ++ natStr n == key ++ "#" ++ natStr s) = false :=
          beq_false_of_ne (fun hh => hns (hashKey_inj key hh))
        simp only [List.lookup, hne]
        rw [ih (s + 1) n hn]
        simp only [List.length_cons]
        omega

theorem expectKeys_length (key : String) (es : List GoErr) :
    ∀ s, (expectKeys key es s).length = es.length := by
  induction es with
  | nil => intro s; simp [expectKeys]
  | cons e rest ih => intro s; simp [expectKeys, ih (s + 1)]

theorem addAllSameKey_aux (key : String) (hk : key ≠ "")
    (l : List (String × GoErr))
    (hfree0 : List.lookup key l = none)
    (hfreeH : ∀ n, 1 ≤ n → List.lookup (key ++ "#" ++ natStr n) l = none) :
    ∀ (es done : List GoErr),
      addAllSameKey (some (.errs (l ++ expectKeys key done 0))) key es =
        some (.errs (l ++ expectKeys key (done ++ es) 0)) := by
  intro es
  induction es with
  | nil => intro done; simp [addAllSameKey]
  | cons e rest ih =>
    intro done
    rw [addAllSameKey]
    have hstep : AddError (some (.errs (l ++ expectKeys key done 0))) key (some e) =
        some (.errs (l ++ expectKeys key (done ++ [e]) 0)) := by
      rw [addError_errs _ _ _ hk]
      congr 2
      rw [expectKeys_append key done [e] 0, ← List.append_assoc]
      congr 1
      cases done with
      | nil =>
        have hfk : errsFreshKey l key = key := by
          unfold errsFreshKey
          rw [if_pos]
          simp [hfree0]
        simp [expectKeys, hfk]
      | cons d0 drest =>
        have hlookupKey :
            List.lookup key (l ++ expectKeys key (d0 :: drest) 0) = some d0 := by
          rw [lookupAppend_none _ _ _ hfree0, expectKeys_lookup_key_zero]
        have hjpos : 1 ≤ (d0 :: drest).length := by simp
        have htaken : ∀ m, 1 ≤ m → m < (d0 :: drest).length →
            (List.lookup (key ++ "#" ++ natStr m)
              (l ++ expectKeys key (d0 :: drest) 0)).isSome = true := by
          intro m h1 h2
          rw [lookupAppend_none _ _ _ (hfreeH m h1)]
          exact (expectKeys_lookup_hash key (d0 :: drest) 0 m h1).mpr (by omega)
        have hfreeJ : (List.lookup (key ++ "#" ++ natStr (d0 :: drest).length)
            (l ++ expectKeys key (d0 :: drest) 0)).isSome = false := by
          rw [lookupAppend_none _ _ _ (hfreeH _ hjpos)]
          have hiff := expectKeys_lookup_hash key (d0 :: drest) 0 (d0 :: drest).length hjpos
          rcases hb : (List.lookup (key ++ "#" ++ natStr (d0 :: drest).length)
              (expectKeys key (d0 :: drest) 0)).isSome with _ | _
          · rfl
          · exfalso
            have := hiff.mp hb
            omega
        have hLlen : (d0 :: drest).length ≤ (l ++ expectKeys key (d0 :: drest) 0).length := by
          simp [expectKeys_length]
        have hsuffix : errsFreeSuffix (l ++ expectKeys key (d0 :: drest) 0) key
            ((l ++ expectKeys key (d0 :: drest) 0).length + 1) 1 = (d0 :: drest).length := by
          have hge := errsFreeSuffix_ge (l ++ expectKeys key (d0 :: drest) 0) key
            ((l ++ expectKeys key (d0 :: drest) 0).length + 1) 1
          rcases Nat.lt_trichotomy
            (errsFreeSuffix (l ++ expectKeys key (d0 :: drest) 0) key
              ((l ++ expectKeys key (d0 :: drest) 0).length + 1) 1)
            (d0 :: drest).length with h | h | h
          · exfalso
            have hfr := errsFreeSuffix_free (l ++ expectKeys key (d0 :: drest) 0) key
              ((l ++ expectKeys key (d0 :: drest) 0).length + 1) 1 (by omega)
            have htk := htaken _ (by omega) h
            rw [htk] at hfr
            exact absurd hfr (by simp)
          · exact h
          · exfalso
            have htk := errsFreeSuffix_taken_below (l ++ expectKeys key (d0 :: drest) 0)
              key ((l ++ expectKeys key (d0 :: drest) 0).length + 1) 1
              (d0 :: drest).length hjpos h
            rw [hfreeJ] at htk
            exact absurd htk (by simp)
        have hfk : errsFreshKey (l ++ expectKeys key (d0 :: drest) 0) key =
            key ++ "#" ++ natStr (d0 :: drest).length := by
          unfold errsFreshKey
          rw [if_neg (by simp [hlookupKey])]
          rw [hsuffix]
        rw [hfk]
        have hjne : ¬ ((d0 :: drest).length = 0) := by simp
        simp [expectKeys, hjne]
    rw [hstep, ih (done ++ [e])]
    rw [List.append_assoc]
    rfl

theorem natStr_one : natStr 1 = "1" := by
  have h0 : natDigitsRev 0 = [] := by rw [natDigitsRev]
  have h1 : natDigitsRev 1 = [1] := by
    rw [show (1 : Nat) = 0 + 1 from rfl, natDigitsRev]
    norm_num
    exact h0
  unfold natStr
  rw [if_neg (by omega), h1]
  rfl

/-- C6: adding to the aggregator never overwrites: a nil error or empty
key is a no-op; otherwise the addition appends a single entry under a key
not previously present — the bare key for a first occurrence — keeping
every previously stored error retrievable and making the new one
retrievable; and a sequence of additions under one key (starting from an
aggregate with no entry for that key family) stores the first under the
bare key and the n-th subsequent one under key#n, in addition order.
The aggregator is modelled from the specification (its source file is not
among the provided sources); `TestErrs` pins the same behaviour. -/
theorem claimC6_aggregator_never_overwrites :
    (∀ (es : Option GoErr) (key : String), AddError es key none = es) ∧
    (∀ (es : Option GoErr) (e : GoErr), AddError es "" (some e) = es) ∧
    (∀ (l : List (String × GoErr)) (key : String) (e : GoErr), key ≠ "" →
      AddError (some (GoErr.errs l)) key (some e) =
        some (GoErr.errs (l ++ [(errsFreshKey l key, e)])) ∧
      List.lookup (errsFreshKey l key) l = none ∧
      (List.lookup key l = none → errsFreshKey l key = key) ∧
      List.lookup (errsFreshKey l key) (l ++ [(errsFreshKey l key, e)]) = some e ∧
      (∀ (k : String) (v : GoErr), List.lookup k l = some v →
        List.lookup k (l ++ [(errsFreshKey l key, e)]) = some v)) ∧
    (∀ (key : String) (l : List (String × GoErr)) (es : List GoErr), key ≠ "" →
      List.lookup key l = none →
      (∀ n, 1 ≤ n → List.lookup (key ++ "#" ++ natStr n) l = none) →
      addAllSameKey (some (GoErr.errs l)) key es =
        some (GoErr.errs (l ++ expectKeys key es 0))) := by
  refine ⟨fun es key => rfl, fun es e => addError_emptyKey es e, ?_, ?_⟩
  · intro l key e hk
    refine ⟨addError_errs l key e hk, errsFreshKey_fresh l key, ?_, ?_, ?_⟩
    · intro hnone
      unfold errsFreshKey
      rw [if_pos (by simp [hnone])]
    · rw [lookupAppend_none _ _ _ (errsFreshKey_fresh l key)]
      simp [List.lookup]
    · intro k v hv
      exact lookupAppend_some _ _ _ _ hv
  · intro key l es hk h0 hH
    have := addAllSameKey_aux key hk l h0 hH es []
    simpa [expectKeys] using this

/-- C6 witness: two errors added under the key "k" to an empty aggregate
land under "k" and "k#1", both retrievable; adding a nil error or under
an empty key changes nothing. -/
theorem claimC6_witness :
    addAllSameKey (some (GoErr.errs [])) "k" [GoErr.leaf "a", GoErr.leaf "b"] =
      some (GoErr.errs [("k", GoErr.leaf "a"), ("k#1", GoErr.leaf "b")]) ∧
    AddError (some (GoErr.errs [("x", GoErr.leaf "y")])) "k" none =
      some (GoErr.errs [("x", GoErr.leaf "y")]) ∧
    AddError (some (GoErr.errs [("x", GoErr.leaf "y")])) "" (some (GoErr.leaf "z")) =
      some (GoErr.errs [("x", GoErr.leaf "y")]) := by
  have hmain := claimC6_aggregator_never_overwrites
  refine ⟨?_, hmain.1 _ "k", hmain.2.1 _ (GoErr.leaf "z")⟩
  have hseq := hmain.2.2.2 "k" [] [GoErr.leaf "a", GoErr.leaf "b"]
    (by decide) rfl (fun n _ => rfl)
  rw [hseq]
  simp [expectKeys, natStr_one]

/-! ## Claims about Selector.Rules (C2) -/

theorem fieldsLookup_of_isEmpty (l : List (String × GoVal)) (k : String)
    (h : l.isEmpty = true) : fieldsLookup l k = none := by
  cases l with
  | nil => rfl
  | cons e rest => simp at h

/-- The selector used in the C2 counterexample: empty field bag. -/
def c2sel : Selector := .mk "s" "//a" "" false false [] []

/-- The source Rules of the C2 counterexample: a non-default method. -/
def c2src : Rules :=
  { method := "POST", url := none, proxy := none, header := none, timeout := 5,
    useCookies := true, ignoreRobotsTxt := false, delay := 7, selectors := [],
    fields := [] }

/-- C2 counterexample: `Selector.Rules` does not inherit the method from
the source Rules — with no Method key in the field bag the result's
method is the zero value "", not the source's "POST". -/
theorem claimC2_counterexample :
    fieldsLookup c2sel.fields KeyMethod = none ∧
    c2src.method = "POST" ∧
    (Selector.rules c2sel c2src).method = "" ∧
    (Selector.rules c2sel c2src).method ≠ c2src.method := by
  refine ⟨rfl, rfl, rfl, ?_⟩
  rw [show (Selector.rules c2sel c2src).method = "" from rfl,
    show c2src.method = "POST" from rfl]
  decide

theorem selectorRules_spec (sel : Selector) (src : Rules) :
    (Selector.rules sel src).method = (match fieldsLookup sel.fields KeyMethod with
      | some v => v.asString
      | none => "") ∧
    (Selector.rules sel src).proxy = (match fieldsLookup sel.fields KeyProxy with
      | some v => v.asURL
      | none => src.proxy) ∧
    (Selector.rules sel src).header = (match fieldsLookup sel.fields KeyHeader with
      | some v => v.asHeader
      | none => src.header) ∧
    (Selector.rules sel src).timeout = (match fieldsLookup sel.fields KeyTimeout with
      | some v => v.asDuration
      | none => src.timeout) ∧
    (Selector.rules sel src).useCookies = (match fieldsLookup sel.fields KeyUseCookies with
      | some v => v.asBool
      | none => src.useCookies) ∧
    (Selector.rules sel src).ignoreRobotsTxt =
      (match fieldsLookup sel.fields KeyIgnoreRobotsTxt with
      | some v => v.asBool
      | none => src.ignoreRobotsTxt) ∧
    (Selector.rules sel src).delay = (match fieldsLookup sel.fields KeyDelay with
      | some v => v.asDuration
      | none => src.delay) ∧
    (Selector.rules sel src).selectors = cloneSelectors sel.selectors ∧
    cloneSelectors sel.selectors = sel.selectors ∧
    (Selector.rules sel src).url = none := by
  by_cases hE : sel.fields.isEmpty
  · have hnone : ∀ k, fieldsLookup sel.fields k = none :=
      fun k => fieldsLookup_of_isEmpty _ k hE
    simp [Selector.rules, hE, hnone, headerClone_eq, map_resolveReference_empty,
      cloneSelectors_eq]
  · rcases h1 : fieldsLookup sel.fields KeyMethod with _ | v1 <;>
      rcases h2 : fieldsLookup sel.fields KeyProxy with _ | v2 <;>
      rcases h3 : fieldsLookup sel.fields KeyHeader with _ | v3 <;>
      rcases h4 : fieldsLookup sel.fields KeyTimeout with _ | v4 <;>
      rcases h5 : fieldsLookup sel.fields KeyUseCookies with _ | v5 <;>
      rcases h6 : fieldsLookup sel.fields KeyIgnoreRobotsTxt with _ | v6 <;>
      rcases h7 : fieldsLookup sel.fields KeyDelay with _ | v7 <;>
      simp [Selector.rules, hE, h1, h2, h3, h4, h5, h6, h7, headerClone_eq,
        map_resolveReference_empty, cloneSelectors_eq]

/-- C2 amended: `Selector.Rules` takes each of proxy, header, timeout,
cookie-use, robots-ignore and delay from the field bag when the key is
present (a type assertion whose failure leaves the zero value), and
otherwise inherits it from the source Rules (the inherited proxy re-
resolved and the inherited header cloned — value-preserving deep copies);
the method is taken from the field bag when present and is otherwise left
as the zero value "", never inherited; the nested selectors are a deep
clone of the selector's nested selectors (value-equal to them), and the
target URL is left unset. -/
theorem claimC2_rules_resolution (sel : Selector) (src : Rules) :
    (Selector.rules sel src).method = (match fieldsLookup sel.fields KeyMethod with
      | some v => v.asString
      | none => "") ∧
    (Selector.rules sel src).proxy = (match fieldsLookup sel.fields KeyProxy with
      | some v => v.asURL
      | none => src.proxy) ∧
    (Selector.rules sel src).header = (match fieldsLookup sel.fields KeyHeader with
      | some v => v.asHeader
      | none => src.header) ∧
    (Selector.rules sel src).timeout = (match fieldsLookup sel.fields KeyTimeout with
      | some v => v.asDuration
      | none => src.timeout) ∧
    (Selector.rules sel src).useCookies = (match fieldsLookup sel.fields KeyUseCookies with
      | some v => v.asBool
      | none => src.useCookies) ∧
    (Selector.rules sel src).ignoreRobotsTxt =
      (match fieldsLookup sel.fields KeyIgnoreRobotsTxt with
      | some v => v.asBool
      | none => src.ignoreRobotsTxt) ∧
    (Selector.rules sel src).delay = (match fieldsLookup sel.fields KeyDelay with
      | some v => v.asDuration
      | none => src.delay) ∧
    (Selector.rules sel src).selectors = cloneSelectors sel.selectors ∧
    cloneSelectors sel.selectors = sel.selectors ∧
    (Selector.rules sel src).url = none :=
  selectorRules_spec sel src

/-! ## Claims about Colibri.Do (C7, C9) -/

theorem headerDefault_preserves (r : Rules) :
    (headerDefault r).method = r.method ∧ (headerDefault r).url = r.url ∧
    (headerDefault r).proxy = r.proxy ∧ (headerDefault r).timeout = r.timeout ∧
    (headerDefault r).useCookies = r.useCookies ∧
    (headerDefault r).ignoreRobotsTxt = r.ignoreRobotsTxt ∧
    (headerDefault r).delay = r.delay ∧ (headerDefault r).selectors = r.selectors ∧
    (headerDefault r).fields = r.fields := by
  simp only [headerDefault]
  split_ifs <;> simp

theorem lookup_listUpsert {α : Type} (l : List (String × α)) (k : String) (v : α) :
    List.lookup k (listUpsert l k v) = some v := by
  induction l with
  | nil => simp [listUpsert, List.lookup]
  | cons e rest ih =>
    rcases e with ⟨k2, w⟩
    by_cases hk : k2 = k
    · subst hk
      simp [listUpsert, List.lookup]
    · have hne : (k == k2) = false := beq_false_of_ne (fun hh => hk hh.symm)
      simp only [listUpsert, if_neg hk, List.lookup, hne]
      exact ih

theorem headerGet_headerSet (h : Option HeaderV) (k v : String) :
    headerGet (headerSet h k v) k = v := by
  cases h with
  | none => simp [headerSet, headerGet, List.lookup]
  | some l => simp [headerSet, headerGet, lookup_listUpsert]

/-- C7: with a transport configured, a robots collaborator configured, and
a Rules that does not set IgnoreRobotsTxt, a denial from the robots
collaborator makes Do return that error with the transport never invoked
(no clientDo tag in the collaborator trace). -/
theorem claimC7_robots_denied_blocks_transport (c : Colibri)
    (cd : Rules → Option Response × Option GoErr) (f : Rules → Option GoErr)
    (r : Rules) (e : GoErr)
    (hc : c.client = some cd) (hf : c.robotsTxt = some f)
    (hig : r.ignoreRobotsTxt = false)
    (hden : f (headerDefault r) = some e) :
    Colibri.Do c (some r) =
      (some (headerDefault r), (none, some e), [CallTag.robotsIsAllowed]) ∧
    (Colibri.Do c (some r)).2.2.count CallTag.clientDo = 0 := by
  have hig2 : (headerDefault r).ignoreRobotsTxt = false := by
    rw [(headerDefault_preserves r).2.2.2.2.2.1]
    exact hig
  have hmain : Colibri.Do c (some r) =
      (some (headerDefault r), (none, some e), [CallTag.robotsIsAllowed]) := by
    simp only [Colibri.Do, hc, hf, hig2, hden]
  refine ⟨hmain, ?_⟩
  rw [hmain]
  rfl

def c7client : Rules → Option Response × Option GoErr := fun _ => (none, none)

def c7robots : Rules → Option GoErr := fun _ => some (.leaf "robots denied")

def c7colibri : Colibri := ⟨some c7client, false, some c7robots⟩

/-- C7 witness: the concrete denial scenario. -/
theorem claimC7_witness :
    Colibri.Do c7colibri (some Rules.empty) =
      (some (headerDefault Rules.empty), (none, some (.leaf "robots denied")),
        [CallTag.robotsIsAllowed]) ∧
    (Colibri.Do c7colibri (some Rules.empty)).2.2.count CallTag.clientDo = 0 :=
  claimC7_robots_denied_blocks_transport c7colibri c7client c7robots Rules.empty
    (.leaf "robots denied") rfl rfl rfl rfl

def c9colibri : Colibri := ⟨none, false, none⟩

/-- C9 counterexample: with a nil Client, Do returns before any mutation,
so a non-nil Rules with a nil Header keeps its nil Header — the claimed
unconditional mutation does not happen. -/
theorem claimC9_counterexample :
    Rules.empty.header = none ∧
    Colibri.Do c9colibri (some Rules.empty) =
      (some Rules.empty, (none, some errClientIsNil), []) ∧
    ∃ r, (Colibri.Do c9colibri (some Rules.empty)).1 = some r ∧ r.header = none :=
  ⟨rfl, rfl, Rules.empty, rfl, rfl⟩

theorem headerDefault_none (r : Rules) (hnone : r.header = none) :
    headerDefault r = { r with header := some [("User-Agent", [DefaultUserAgent])] } := by
  unfold headerDefault
  rw [hnone]
  have hc1 : (none : Option HeaderV).isNone = true := rfl
  rw [if_pos hc1]
  have hc2 : trimSpace (headerGet ({ r with header := some [] } : Rules).header
      "User-Agent") = "" := rfl
  rw [if_pos hc2]
  rfl

theorem headerDefault_some (r : Rules) (hnone : ¬ r.header = none) :
    headerDefault r =
      if trimSpace (headerGet r.header "User-Agent") = "" then
        { r with header := headerSet r.header "User-Agent" DefaultUserAgent }
      else r := by
  unfold headerDefault
  have hc1 : r.header.isNone = false := by
    cases hh : r.header
    · exact absurd hh hnone
    · rfl
  rw [hc1]
  simp

/-- C9 amended: provided the Client collaborator is non-nil, Do rewrites
the caller's Rules to `headerDefault r` on every path (robots denial and
transport failure included): a nil header becomes a non-empty one, an
absent or blank User-Agent becomes the default, a present User-Agent
leaves the header untouched, and every other field is unchanged. -/
theorem claimC9_do_mutates_header (c : Colibri)
    (cd : Rules → Option Response × Option GoErr) (r : Rules)
    (hc : c.client = some cd) :
    (Colibri.Do c (some r)).1 = some (headerDefault r) ∧
    (headerDefault r).method = r.method ∧ (headerDefault r).url = r.url ∧
    (headerDefault r).proxy = r.proxy ∧ (headerDefault r).timeout = r.timeout ∧
    (headerDefault r).useCookies = r.useCookies ∧
    (headerDefault r).ignoreRobotsTxt = r.ignoreRobotsTxt ∧
    (headerDefault r).delay = r.delay ∧ (headerDefault r).selectors = r.selectors ∧
    (headerDefault r).fields = r.fields ∧
    (r.header = none → ∃ hv, (headerDefault r).header = some hv ∧ hv ≠ []) ∧
    (trimSpace (headerGet r.header "User-Agent") = "" →
      headerGet (headerDefault r).header "User-Agent" = DefaultUserAgent) ∧
    (trimSpace (headerGet r.header "User-Agent") ≠ "" →
      (headerDefault r).header = r.header) := by
  have hfirst : (Colibri.Do c (some r)).1 = some (headerDefault r) := by
    simp only [Colibri.Do, hc]
    rcases c.robotsTxt with _ | f
    · simp
    · cases hig : (headerDefault r).ignoreRobotsTxt
      · cases hall : f (headerDefault r) <;> simp [hall]
      · simp
  have hp := headerDefault_preserves r
  refine ⟨hfirst, hp.1, hp.2.1, hp.2.2.1, hp.2.2.2.1, hp.2.2.2.2.1,
    hp.2.2.2.2.2.1, hp.2.2.2.2.2.2.1, hp.2.2.2.2.2.2.2.1, hp.2.2.2.2.2.2.2.2,
    ?_, ?_, ?_⟩
  · intro hnone
    refine ⟨[("User-Agent", [DefaultUserAgent])], ?_, by simp⟩
    rw [headerDefault_none r hnone]
  · intro hblank
    by_cases hnone : r.header = none
    · rw [headerDefault_none r hnone]
      rfl
    · rw [headerDefault_some r hnone]
      rw [if_pos hblank]
      exact headerGet_headerSet _ _ _
  · intro hblank
    by_cases hnone : r.header = none
    · exfalso
      apply hblank
      simp only [hnone, headerGet]
      rfl
    · rw [headerDefault_some r hnone]
      rw [if_neg hblank]

def c9client : Rules → Option Response × Option GoErr := fun _ => (none, none)

def c9colibriB : Colibri := ⟨some c9client, false, none⟩

/-- C9 witness: with a client configured and a nil header, the returned
Rules carries the defaulted header with the default User-Agent. -/
theorem claimC9_witness :
    (Colibri.Do c9colibriB (some Rules.empty)).1 = some (headerDefault Rules.empty) ∧
    (headerDefault Rules.empty).header = some [("User-Agent", [DefaultUserAgent])] ∧
    headerGet (headerDefault Rules.empty).header "User-Agent" = DefaultUserAgent := by
  have h := claimC9_do_mutates_header c9colibriB c9client Rules.empty rfl
  exact ⟨h.1, rfl, h.2.2.2.2.2.2.2.2.2.2.2.1 rfl⟩

/-! ## Claims about the extraction engine (C8, C5, C4) -/

/-- A response stub whose Extract always succeeds with an empty mapping. -/
def respStub : Response := ⟨parseURL "https://ex.test/p", fun _ => (GoVal.gMap [], none)⟩

/-- An element with no matching children. -/
def noMatchElement : Element :=
  .mk (fun _ _ => .ok none) (fun _ _ => .ok []) GoVal.gNil

/-- C8: a non-All selector whose Find succeeds with no matching child is a
success with value nil — evaluated inside any sibling list, nil is stored
under the selector's name and nothing is added to the aggregate. -/
theorem claimC8_no_match_is_nil_success (src : Rules) (resp : Response)
    (sel : Selector) (parentE : Element)
    (hall : sel.all = false)
    (hfind : parentE.find sel.expr sel.typ = .ok none) :
    findSelector src resp (some sel) (some parentE) = (GoVal.gNil, none) ∧
    ∀ (acc : List (String × GoVal)) (errsAcc : Option GoErr) (rest : List Selector),
      findSelectorsLoop src resp parentE acc errsAcc (sel :: rest) =
        findSelectorsLoop src resp parentE (listUpsert acc sel.name GoVal.gNil)
          errsAcc rest := by
  have h1 : findSelector src resp (some sel) (some parentE) = (GoVal.gNil, none) := by
    simp [findSelector, hall, hfind]
  refine ⟨h1, ?_⟩
  intro acc errsAcc rest
  rw [findSelectorsLoop, h1]

def c8sel : Selector := .mk "a" "q" "" false false [] []

/-- C8 witness: the concrete no-match scenario, alone in a sibling list. -/
theorem claimC8_witness :
    c8sel.all = false ∧
    Element.find noMatchElement c8sel.expr c8sel.typ = Except.ok none ∧
    findSelector Rules.empty respStub (some c8sel) (some noMatchElement) =
      (GoVal.gNil, none) ∧
    findSelectorsLoop Rules.empty respStub noMatchElement [] none [c8sel] =
      ([("a", GoVal.gNil)], none) := by
  have h := claimC8_no_match_is_nil_success Rules.empty respStub c8sel
    noMatchElement rfl rfl
  refine ⟨rfl, rfl, h.1, ?_⟩
  rw [h.2 [] none []]
  rw [findSelectorsLoop]
  rfl

/-- C5: when a selector has Follow=true, following short-circuits: for
All=false the single-match evaluation is exactly the follow evaluation of
the child's value, and for All=true the evaluation is exactly the follow
evaluation of the children's values — in both cases regardless of the
selector's nested Selectors, which are never applied to the matched
child; instead the follow rules carry (a clone of) those nested
selectors, to be applied to each followed page. -/
theorem claimC5_follow_short_circuits (src : Rules) (resp : Response)
    (sel : Selector) (parentE : Element)
    (hfollow : sel.follow = true) :
    (∀ child, sel.all = false → parentE.find sel.expr sel.typ = .ok (some child) →
      findSelector src resp (some sel) (some parentE) =
        followSelector src resp sel [child.value]) ∧
    (∀ children, sel.all = true → parentE.findAll sel.expr sel.typ = .ok children →
      findAllSelector src resp sel parentE =
        followSelector src resp sel (children.map Element.value)) ∧
    (Selector.rules sel src).selectors = sel.selectors := by
  refine ⟨?_, ?_, ?_⟩
  · intro child hall hfind
    simp [findSelector, hall, hfind, hfollow]
  · intro children hall hfindAll
    simp [findAllSelector, hfindAll, hfollow]
  · have h := selectorRules_spec sel src
    rw [h.2.2.2.2.2.2.2.1, h.2.2.2.2.2.2.2.2.1]

def c5nested : Selector := .mk "t" "//h1" "" false false [] []

def c5sel : Selector := .mk "links" "//a" "" false true [c5nested] []

def c5selAll : Selector := .mk "links" "//a" "" true true [c5nested] []

def c5child : Element :=
  .mk (fun _ _ => .ok none) (fun _ _ => .ok []) (GoVal.gStr "https://ex.test/next")

def c5parent : Element :=
  .mk (fun _ _ => .ok (some c5child)) (fun _ _ => .ok [c5child]) GoVal.gNil

/-- C5 witness: concrete follow selectors with nested selectors present,
for both All=false and All=true. -/
theorem claimC5_witness :
    findSelector Rules.empty respStub (some c5sel) (some c5parent) =
      followSelector Rules.empty respStub c5sel [GoVal.gStr "https://ex.test/next"] ∧
    findAllSelector Rules.empty respStub c5selAll c5parent =
      followSelector Rules.empty respStub c5selAll [GoVal.gStr "https://ex.test/next"] ∧
    (Selector.rules c5sel Rules.empty).selectors = [c5nested] := by
  have h1 := claimC5_follow_short_circuits Rules.empty respStub c5sel c5parent rfl
  have h2 := claimC5_follow_short_circuits Rules.empty respStub c5selAll c5parent rfl
  exact ⟨h1.1 c5child rfl rfl, h2.2.1 [c5child] rfl rfl, h1.2.2⟩

def c4sel : Selector := .mk "links" "//a" "" true true [] []

/-- C4 counterexample: an All+Follow selector with zero matches yields an
empty mapping, not a list-shaped value — the claimed list shape fails for
Follow selectors. -/
theorem claimC4_counterexample :
    c4sel.all = true ∧
    Element.findAll noMatchElement c4sel.expr c4sel.typ = Except.ok [] ∧
    findAllSelector Rules.empty respStub c4sel noMatchElement =
      (GoVal.gMap [], none) ∧
    ∀ l : List GoVal, (GoVal.gMap [] : GoVal) ≠ GoVal.gList l := by
  refine ⟨rfl, rfl, ?_, ?_⟩
  · simp [findAllSelector, noMatchElement, c4sel, Element.findAll, Selector.follow]
    rfl
  · intro l h
    exact GoVal.noConfusion h

/-- C4 amended: for an All selector whose FindAll succeeds with zero
matches, the result is the empty list (and no error) when Follow is
false, and the empty mapping (and no error) when Follow is true; it is
never absent. -/
theorem claimC4_all_empty_shape (src : Rules) (resp : Response)
    (sel : Selector) (parentE : Element)
    (hfind : parentE.findAll sel.expr sel.typ = .ok []) :
    (sel.all = true → findSelector src resp (some sel) (some parentE) =
      findAllSelector src resp sel parentE) ∧
    (sel.follow = false →
      findAllSelector src resp sel parentE = (GoVal.gList [], none)) ∧
    (sel.follow = true →
      findAllSelector src resp sel parentE = (GoVal.gMap [], none)) := by
  refine ⟨?_, ?_, ?_⟩
  · intro hall
    simp [findSelector, hall]
  · intro hf
    by_cases hn : 0 < sel.selectors.length
    · simp [findAllSelector, hfind, hf, hn, findAllNestedLoop]
    · simp [findAllSelector, hfind, hf, hn]
  · intro hf
    simp [findAllSelector, hfind, hf]
    rfl

def c4selNoFollow : Selector := .mk "links" "//a" "" true false [] []

/-- C4 witness: zero matches concretely, for both Follow values. -/
theorem claimC4_witness :
    findAllSelector Rules.empty respStub c4selNoFollow noMatchElement =
      (GoVal.gList [], none) ∧
    findAllSelector Rules.empty respStub c4sel noMatchElement =
      (GoVal.gMap [], none) ∧
    findSelector Rules.empty respStub (some c4sel) (some noMatchElement) =
      findAllSelector Rules.empty respStub c4sel noMatchElement := by
  have h1 := claimC4_all_empty_shape Rules.empty respStub c4selNoFollow
    noMatchElement rfl
  have h2 := claimC4_all_empty_shape Rules.empty respStub c4sel noMatchElement rfl
  exact ⟨h1.2.1 rfl, h2.2.2 rfl, h2.1 rfl⟩

/-! ## Claim C1: sibling independence of findSelectors -/

/-- The succeeding siblings' contributions to the result mapping, in
sibling order. -/
def siblingSuccesses (src : Rules) (resp : Response) (parent : Element) :
    List Selector → List (String × GoVal)
  | [] => []
  | sel :: rest =>
    match findSelector src resp (some sel) (some parent) with
    | (v, none) => (sel.name, v) :: siblingSuccesses src resp parent rest
    | (_, some _) => siblingSuccesses src resp parent rest

/-- The failing siblings' contributions to the aggregate, in sibling
order. -/
def siblingFailures (src : Rules) (resp : Response) (parent : Element) :
    List Selector → List (String × GoErr)
  | [] => []
  | sel :: rest =>
    match findSelector src resp (some sel) (some parent) with
    | (_, some e) => (sel.name, e) :: siblingFailures src resp parent rest
    | (_, none) => siblingFailures src resp parent rest

theorem listUpsert_absent {α : Type} (l : List (String × α)) (k : String) (v : α)
    (h : List.lookup k l = none) : listUpsert l k v = l ++ [(k, v)] := by
  induction l with
  | nil => rfl
  | cons e rest ih =>
    rcases e with ⟨k2, w⟩
    by_cases hk : k2 = k
    · subst hk
      simp [List.lookup] at h
    · have hne : (k == k2) = false := beq_false_of_ne (fun hh => hk hh.symm)
      simp only [List.lookup, hne] at h
      simp only [listUpsert, if_neg hk, List.cons_append, List.cons.injEq, true_and]
      exact ih h

theorem lookup_single_ne {α : Type} (k k2 : String) (v : α) (h : k ≠ k2) :
    List.lookup k [(k2, v)] = none := by
  have hne : (k == k2) = false := beq_false_of_ne h
  simp [List.lookup, hne]

theorem findSelectorsLoop_spec (src : Rules) (resp : Response) (parent : Element) :
    ∀ (sels : List Selector) (acc : List (String × GoVal))
      (l0 : List (String × GoErr)),
      (∀ s ∈ sels, s.name ≠ "") →
      ((sels.map Selector.name).Nodup) →
      (∀ s ∈ sels, List.lookup s.name acc = none) →
      (∀ s ∈ sels, List.lookup s.name l0 = none) →
      findSelectorsLoop src resp parent acc (errsOpt l0) sels =
        (acc ++ siblingSuccesses src resp parent sels,
          errsOpt (l0 ++ siblingFailures src resp parent sels)) := by
  intro sels
  induction sels with
  | nil =>
    intro acc l0 _ _ _ _
    simp [findSelectorsLoop, siblingSuccesses, siblingFailures]
  | cons sel rest ih =>
    intro acc l0 hne hnd hacc hl0
    have hheadne : sel.name ≠ "" := hne sel (by simp)
    have hrestne : ∀ s ∈ rest, s.name ≠ "" := fun s hs => hne s (by simp [hs])
    have hndrest : (rest.map Selector.name).Nodup := (List.nodup_cons.mp hnd).2
    have hheadnotin : ∀ s ∈ rest, s.name ≠ sel.name := by
      intro s hs heq
      exact (List.nodup_cons.mp hnd).1 (heq ▸ List.mem_map_of_mem Selector.name hs)
    rw [findSelectorsLoop]
    rcases hres : findSelector src resp (some sel) (some parent) with ⟨v, err⟩
    cases err with
    | some e =>
      simp only [hres]
      rw [addError_bare l0 sel.name e hheadne (hl0 sel (by simp))]
      rw [ih acc (l0 ++ [(sel.name, e)]) hrestne hndrest
        (fun s hs => hacc s (by simp [hs]))
        (fun s hs => by
          rw [lookupAppend_none _ _ _ (hl0 s (by simp [hs]))]
          exact lookup_single_ne _ _ _ (hheadnotin s hs))]
      simp only [siblingSuccesses, siblingFailures, hres, List.append_assoc,
        List.singleton_append]
    | none =>
      simp only [hres]
      rw [listUpsert_absent acc sel.name v (hacc sel (by simp))]
      rw [ih (acc ++ [(sel.name, v)]) l0 hrestne hndrest
        (fun s hs => by
          rw [lookupAppend_none _ _ _ (hacc s (by simp [hs]))]
          exact lookup_single_ne _ _ _ (hheadnotin s hs))
        (fun s hs => hl0 s (by simp [hs]))]
      simp only [siblingSuccesses, siblingFailures, hres, List.append_assoc,
        List.singleton_append]

theorem siblingFailures_lookup_notin (src : Rules) (resp : Response)
    (parent : Element) :
    ∀ (sels : List Selector) (nm : String), (∀ t ∈ sels, t.name ≠ nm) →
      List.lookup nm (siblingFailures src resp parent sels) = none := by
  intro sels
  induction sels with
  | nil => intro nm _; simp [siblingFailures]
  | cons t rest ih =>
    intro nm hnotin
    rcases hres : findSelector src resp (some t) (some parent) with ⟨v, err⟩
    cases err with
    | some e =>
      have hne : (nm == t.name) = false :=
        beq_false_of_ne (fun hh => hnotin t (by simp) hh.symm)
      simp only [siblingFailures, hres, List.lookup, hne]
      exact ih nm (fun t2 ht2 => hnotin t2 (by simp [ht2]))
    | none =>
      simp only [siblingFailures, hres]
      exact ih nm (fun t2 ht2 => hnotin t2 (by simp [ht2]))

theorem siblingSuccesses_lookup_notin (src : Rules) (resp : Response)
    (parent : Element) :
    ∀ (sels : List Selector) (nm : String), (∀ t ∈ sels, t.name ≠ nm) →
      List.lookup nm (siblingSuccesses src resp parent sels) = none := by
  intro sels
  induction sels with
  | nil => intro nm _; simp [siblingSuccesses]
  | cons t rest ih =>
    intro nm hnotin
    rcases hres : findSelector src resp (some t) (some parent) with ⟨v, err⟩
    cases err with
    | some e =>
      simp only [siblingSuccesses, hres]
      exact ih nm (fun t2 ht2 => hnotin t2 (by simp [ht2]))
    | none =>
      have hne : (nm == t.name) = false :=
        beq_false_of_ne (fun hh => hnotin t (by simp) hh.symm)
      simp only [siblingSuccesses, hres, List.lookup, hne]
      exact ih nm (fun t2 ht2 => hnotin t2 (by simp [ht2]))

theorem siblingLookup_success (src : Rules) (resp : Response) (parent : Element) :
    ∀ (sels : List Selector) (s : Selector), s ∈ sels →
      ((sels.map Selector.name).Nodup) →
      (findSelector src resp (some s) (some parent)).2 = none →
      List.lookup s.name (siblingSuccesses src resp parent sels) =
        some (findSelector src resp (some s) (some parent)).1 ∧
      List.lookup s.name (siblingFailures src resp parent sels) = none := by
  intro sels
  induction sels with
  | nil => intro s hs; simp at hs
  | cons sel rest ih =>
    intro s hs hnd hsucc
    have hndrest : (rest.map Selector.name).Nodup := (List.nodup_cons.mp hnd).2
    rcases List.mem_cons.mp hs with rfl | hmem
    · have hnotin : ∀ t ∈ rest, t.name ≠ s.name := by
        intro t ht heq
        exact (List.nodup_cons.mp hnd).1 (heq ▸ List.mem_map_of_mem Selector.name ht)
      rcases hres : findSelector src resp (some s) (some parent) with ⟨v, err⟩
      rw [hres] at hsucc
      simp at hsucc
      subst hsucc
      refine ⟨by simp [siblingSuccesses, hres, List.lookup], ?_⟩
      rw [show siblingFailures src resp parent (s :: rest) =
          siblingFailures src resp parent rest from by
        simp [siblingFailures, hres]]
      exact siblingFailures_lookup_notin src resp parent rest s.name hnotin
    · have hsname : s.name ≠ sel.name := by
        intro heq
        exact (List.nodup_cons.mp hnd).1 (heq ▸ List.mem_map_of_mem Selector.name hmem)
      have hrec := ih s hmem hndrest hsucc
      rcases hres : findSelector src resp (some sel) (some parent) with ⟨v, err⟩
      cases err with
      | some e =>
        have hne : (s.name == sel.name) = false := beq_false_of_ne hsname
        simp only [siblingSuccesses, siblingFailures, hres, List.lookup, hne]
        exact hrec
      | none =>
        have hne : (s.name == sel.name) = false := beq_false_of_ne hsname
        simp only [siblingSuccesses, siblingFailures, hres, List.lookup, hne]
        exact hrec

theorem siblingLookup_failure (src : Rules) (resp : Response) (parent : Element) :
    ∀ (sels : List Selector) (s : Selector) (e : GoErr), s ∈ sels →
      ((sels.map Selector.name).Nodup) →
      (findSelector src resp (some s) (some parent)).2 = some e →
      List.lookup s.name (siblingFailures src resp parent sels) = some e ∧
      List.lookup s.name (siblingSuccesses src resp parent sels) = none := by
  intro sels
  induction sels with
  | nil => intro s e hs; simp at hs
  | cons sel rest ih =>
    intro s e hs hnd hfail
    have hndrest : (rest.map Selector.name).Nodup := (List.nodup_cons.mp hnd).2
    rcases List.mem_cons.mp hs with rfl | hmem
    · have hnotin : ∀ t ∈ rest, t.name ≠ s.name := by
        intro t ht heq
        exact (List.nodup_cons.mp hnd).1 (heq ▸ List.mem_map_of_mem Selector.name ht)
      rcases hres : findSelector src resp (some s) (some parent) with ⟨v, err⟩
      rw [hres] at hfail
      simp at hfail
      subst hfail
      refine ⟨by simp [siblingFailures, hres, List.lookup], ?_⟩
      rw [show siblingSuccesses src resp parent (s :: rest) =
          siblingSuccesses src resp parent rest from by
        simp [siblingSuccesses, hres]]
      exact siblingSuccesses_lookup_notin src resp parent rest s.name hnotin
    · have hsname : s.name ≠ sel.name := by
        intro heq
        exact (List.nodup_cons.mp hnd).1 (heq ▸ List.mem_map_of_mem Selector.name hmem)
      have hrec := ih s e hmem hndrest hfail
      rcases hres : findSelector src resp (some sel) (some parent) with ⟨v, err⟩
      cases err with
      | some e2 =>
        have hne : (s.name == sel.name) = false := beq_false_of_ne hsname
        simp only [siblingSuccesses, siblingFailures, hres, List.lookup, hne]
        exact hrec
      | none =>
        have hne : (s.name == sel.name) = false := beq_false_of_ne hsname
        simp only [siblingSuccesses, siblingFailures, hres, List.lookup, hne]
        exact hrec

/-- C1: every sibling is attempted regardless of other siblings'
outcomes: the result of findSelectors is exactly the mapping of the
succeeding siblings' names to their values together with the aggregate of
the failing siblings' errors keyed by their names (in sibling order);
every succeeding sibling's value is retrievable under its name and
absent from the aggregate, and every failing sibling's error is
retrievable under its name and absent from the result mapping. With one
failing sibling among the list, the aggregate consists of exactly that
one entry. Hypotheses: sibling names are non-empty and pairwise distinct
(the data model's invariant). -/
theorem claimC1_sibling_independence (src : Rules) (resp : Response)
    (parent : Element) (sels : List Selector)
    (hne : ∀ s ∈ sels, s.name ≠ "")
    (hnd : (sels.map Selector.name).Nodup) :
    findSelectors src (some resp) (some sels) (some parent) =
      (GoVal.gMap (siblingSuccesses src resp parent sels),
        errsOpt (siblingFailures src resp parent sels)) ∧
    (∀ s ∈ sels, (findSelector src resp (some s) (some parent)).2 = none →
      List.lookup s.name (siblingSuccesses src resp parent sels) =
        some (findSelector src resp (some s) (some parent)).1 ∧
      List.lookup s.name (siblingFailures src resp parent sels) = none) ∧
    (∀ s ∈ sels, ∀ e, (findSelector src resp (some s) (some parent)).2 = some e →
      List.lookup s.name (siblingFailures src resp parent sels) = some e ∧
      List.lookup s.name (siblingSuccesses src resp parent sels) = none) := by
  refine ⟨?_, fun s hs => siblingLookup_success src resp parent sels s hs hnd,
    fun s hs e => siblingLookup_failure src resp parent sels s e hs hnd⟩
  have hl := findSelectorsLoop_spec src resp parent sels [] [] hne hnd
    (fun s _ => rfl) (fun s _ => rfl)
  have hl2 : findSelectorsLoop src resp parent [] none sels =
      (siblingSuccesses src resp parent sels,
        errsOpt (siblingFailures src resp parent sels)) := by
    simpa [errsOpt] using hl
  simp [findSelectors, hl2]

def c1childA : Element := .mk (fun _ _ => .ok none) (fun _ _ => .ok []) (GoVal.gStr "x")

def c1parent : Element :=
  .mk (fun expr _ => if expr = "a" then .ok (some c1childA)
    else .error (.leaf "compile error"))
    (fun _ _ => .ok []) GoVal.gNil

def c1selA : Selector := .mk "A" "a" "" false false [] []

def c1selB : Selector := .mk "B" "b" "" false false [] []

/-- C1 witness: two siblings of which exactly one fails (uncompilable
expression): the other's value appears in the output and the aggregate
holds exactly one entry keyed by the failing selector's name. -/
theorem claimC1_witness :
    findSelectors Rules.empty (some respStub) (some [c1selA, c1selB]) (some c1parent) =
      (GoVal.gMap [("A", GoVal.gStr "x")],
        some (GoErr.errs [("B", GoErr.leaf "compile error")])) := by
  have h := claimC1_sibling_independence Rules.empty respStub c1parent
    [c1selA, c1selB]
    (by intro s hs; fin_cases hs <;> decide)
    (by decide)
  rw [h.1]
  have hA : findSelector Rules.empty respStub (some c1selA) (some c1parent) =
      (GoVal.gStr "x", none) := by
    simp [findSelector, c1selA, c1parent, Selector.all, Selector.expr, Selector.typ,
      Element.find, c1childA, Selector.follow, Selector.selectors, Element.value]
  have hB : findSelector Rules.empty respStub (some c1selB) (some c1parent) =
      (GoVal.gNil, some (.leaf "compile error")) := by
    simp [findSelector, c1selB, c1parent, Selector.all, Selector.expr, Selector.typ,
      Element.find]
  simp only [siblingSuccesses, siblingFailures, hA, hB]
  simp [errsOpt, c1selA, c1selB, Selector.name]

/-! ## Claim C3: followSelector and per-URL failures -/

/-- Resolution of one converted candidate against the response URL. -/
def resolveCandidate (respURL : URLv) (u : URLv) : URLv :=
  if u.isAbs then u else URLv.resolveReference respURL u

/-- The resolved URLs of the candidate values that convert. -/
def resolvedURLs (respURL : URLv) : List GoVal → List URLv
  | [] => []
  | raw :: rest =>
    match ToURL raw with
    | .ok u => resolveCandidate respURL u :: resolvedURLs respURL rest
    | .error _ => resolvedURLs respURL rest

/-- The URLs whose nested fetch+extract succeeds, with their outputs. -/
def fetchSuccesses (rules : Rules) (resp : Response) : List URLv → List (String × GoVal)
  | [] => []
  | u :: rest =>
    match resp.extract { rules.clone with url := some u } with
    | (found, none) => (u.render, found) :: fetchSuccesses rules resp rest
    | (_, some _) => fetchSuccesses rules resp rest

/-- The URLs whose nested fetch+extract fails, with their errors. -/
def fetchFailures (rules : Rules) (resp : Response) : List URLv → List (String × GoErr)
  | [] => []
  | u :: rest =>
    match resp.extract { rules.clone with url := some u } with
    | (_, some e) => (u.render, e) :: fetchFailures rules resp rest
    | (_, none) => fetchFailures rules resp rest

theorem followConvert_ok (respURL : URLv) :
    ∀ (raws : List GoVal) (acc : List URLv) (errs0 : Option GoErr),
      (∀ raw ∈ raws, ∃ u, ToURL raw = .ok u) →
      followConvert respURL acc errs0 raws =
        (acc ++ resolvedURLs respURL raws, errs0) := by
  intro raws
  induction raws with
  | nil => intro acc errs0 _; simp [followConvert, resolvedURLs]
  | cons raw rest ih =>
    intro acc errs0 hok
    obtain ⟨u, hu⟩ := hok raw (by simp)
    simp only [followConvert, hu]
    rw [ih (acc ++ [if u.isAbs then u else URLv.resolveReference respURL u]) errs0
      (fun r hr => hok r (by simp [hr]))]
    simp [resolvedURLs, hu, resolveCandidate]

theorem followFetch_spec (rules : Rules) (resp : Response) :
    ∀ (urls : List URLv) (acc : List (String × GoVal))
      (l0 : List (String × GoErr)),
      (∀ u ∈ urls, u.render ≠ "") →
      ((urls.map URLv.render).Nodup) →
      (∀ u ∈ urls, List.lookup u.render acc = none) →
      (∀ u ∈ urls, List.lookup u.render l0 = none) →
      followFetch rules resp acc (errsOpt l0) urls =
        (acc ++ fetchSuccesses rules resp urls,
          errsOpt (l0 ++ fetchFailures rules resp urls)) := by
  intro urls
  induction urls with
  | nil =>
    intro acc l0 _ _ _ _
    simp [followFetch, fetchSuccesses, fetchFailures]
  | cons u rest ih =>
    intro acc l0 hne hnd hacc hl0
    have hheadne : u.render ≠ "" := hne u (by simp)
    have hrestne : ∀ w ∈ rest, w.render ≠ "" := fun w hw => hne w (by simp [hw])
    have hndrest : (rest.map URLv.render).Nodup := (List.nodup_cons.mp hnd).2
    have hheadnotin : ∀ w ∈ rest, w.render ≠ u.render := by
      intro w hw heq
      exact (List.nodup_cons.mp hnd).1 (heq ▸ List.mem_map_of_mem URLv.render hw)
    rw [followFetch]
    rcases hres : resp.extract { rules.clone with url := some u } with ⟨found, err⟩
    cases err with
    | some e =>
      simp only [hres]
      rw [addError_bare l0 u.render e hheadne (hl0 u (by simp))]
      rw [ih acc (l0 ++ [(u.render, e)]) hrestne hndrest
        (fun w hw => hacc w (by simp [hw]))
        (fun w hw => by
          rw [lookupAppend_none _ _ _ (hl0 w (by simp [hw]))]
          exact lookup_single_ne _ _ _ (hheadnotin w hw))]
      simp only [fetchSuccesses, fetchFailures, hres, List.append_assoc,
        List.singleton_append]
    | none =>
      simp only [hres]
      rw [listUpsert_absent acc u.render found (hacc u (by simp))]
      rw [ih (acc ++ [(u.render, found)]) l0 hrestne hndrest
        (fun w hw => by
          rw [lookupAppend_none _ _ _ (hacc w (by simp [hw]))]
          exact lookup_single_ne _ _ _ (hheadnotin w hw))
        (fun w hw => hl0 w (by simp [hw]))]
      simp only [fetchSuccesses, fetchFailures, hres, List.append_assoc,
        List.singleton_append]

theorem addError_isSome (x : GoErr) (key : String) (err : Option GoErr) :
    (AddError (some x) key err).isSome = true := by
  cases err with
  | none => rfl
  | some e =>
    by_cases hk : key = ""
    · simp [AddError, hk]
    · cases x <;> simp [AddError, hk]

theorem followConvert_pres_some (respURL : URLv) :
    ∀ (raws : List GoVal) (acc : List URLv) (errs0 : Option GoErr),
      errs0.isSome = true →
      (followConvert respURL acc errs0 raws).2.isSome = true := by
  intro raws
  induction raws with
  | nil => intro acc errs0 h; simpa [followConvert] using h
  | cons raw rest ih =>
    intro acc errs0 h
    obtain ⟨x, hx⟩ := Option.isSome_iff_exists.mp h
    rw [followConvert]
    rcases hres : ToURL raw with u | e
    · subst hx
      exact ih _ _ (addError_isSome x (valFmt raw) (some u))
    · exact ih _ _ h

theorem followConvert_hits (respURL : URLv) :
    ∀ (raws : List GoVal) (acc : List URLv) (errs0 : Option GoErr)
      (raw : GoVal) (e : GoErr), raw ∈ raws →
      ToURL raw = .error e → valFmt raw ≠ "" →
      (followConvert respURL acc errs0 raws).2.isSome = true := by
  intro raws
  induction raws with
  | nil => intro acc errs0 raw e hmem; simp at hmem
  | cons r rest ih =>
    intro acc errs0 raw e hmem herr hfmt
    rcases List.mem_cons.mp hmem with rfl | hmem2
    · rw [followConvert, herr]
      have hsome : (AddError errs0 (valFmt raw) (some e)).isSome = true := by
        cases errs0 with
        | none => rw [addError_noneStart _ _ hfmt]; rfl
        | some x => exact addError_isSome x _ _
      exact followConvert_pres_some respURL rest acc _ hsome
    · rw [followConvert]
      rcases hres : ToURL r with u | e2
      · exact ih _ _ raw e hmem2 herr hfmt
      · exact ih _ _ raw e hmem2 herr hfmt

theorem followSelector_conv_fail (src : Rules) (resp : Response) (sel : Selector)
    (raws : List GoVal)
    (h : (followConvert resp.url [] none raws).2.isSome = true) :
    followSelector src resp sel raws =
      (GoVal.gNil, (followConvert resp.url [] none raws).2) := by
  unfold followSelector
  rw [if_pos h]

theorem followSelector_url_only (src : Rules) (sel : Selector)
    (resp resp2 : Response) (raws : List GoVal)
    (hurl : resp2.url = resp.url)
    (h : (followConvert resp.url [] none raws).2.isSome = true) :
    followSelector src resp2 sel raws = followSelector src resp sel raws := by
  rw [followSelector_conv_fail src resp sel raws h,
    followSelector_conv_fail src resp2 sel raws (by rw [hurl]; exact h), hurl]

/-- The selector of the C3 scenario: All + Follow. -/
def c3sel : Selector := .mk "links" "//a" "" true true [] []

/-- C3 counterexample: with two candidate values of which the first fails
URL conversion (a non-string value) and the second is a URL whose nested
fetch+extract would succeed, followSelector aborts before any fetch: the
result is nil — not a mapping containing the good URL — and the error
holds the conversion failure. -/
theorem claimC3_counterexample :
    ToURL (GoVal.gList []) = Except.error errMustBeString ∧
    respStub.extract { (Selector.rules c3sel Rules.empty).clone with
      url := some (parseURL "https://ok.test/x") } = (GoVal.gMap [], none) ∧
    followSelector Rules.empty respStub c3sel
      [GoVal.gList [], GoVal.gStr "https://ok.test/x"] =
      (GoVal.gNil, some (GoErr.errs [("[]", errMustBeString)])) ∧
    ∀ m : List (String × GoVal), (GoVal.gNil : GoVal) ≠ GoVal.gMap m := by
  refine ⟨rfl, rfl, rfl, ?_⟩
  intro m h
  exact GoVal.noConfusion h

/-- C3 amended: when every candidate value converts to a URL, failures of
the nested fetch+extract for one URL are keyed by that URL string in the
aggregate and do not prevent the other URLs from being attempted — the
result maps exactly the succeeded URLs to their outputs; but when any
candidate fails URL conversion, followSelector returns a nil result with
the conversion errors and performs no fetch at all (its output depends on
the response only through its URL). Hypotheses for the first part:
resolved URL strings pairwise distinct and non-empty. -/
theorem claimC3_follow_urls (src : Rules) (resp : Response) (sel : Selector)
    (raws : List GoVal) :
    ((∀ raw ∈ raws, ∃ u, ToURL raw = .ok u) →
      (∀ u ∈ resolvedURLs resp.url raws, u.render ≠ "") →
      (((resolvedURLs resp.url raws).map URLv.render).Nodup) →
      followSelector src resp sel raws =
        (GoVal.gMap (fetchSuccesses (Selector.rules sel src) resp
            (resolvedURLs resp.url raws)),
          errsOpt (fetchFailures (Selector.rules sel src) resp
            (resolvedURLs resp.url raws)))) ∧
    (∀ raw ∈ raws, ∀ e, ToURL raw = .error e → valFmt raw ≠ "" →
      followSelector src resp sel raws =
        (GoVal.gNil, (followConvert resp.url [] none raws).2) ∧
      (followConvert resp.url [] none raws).2.isSome = true ∧
      ∀ resp2 : Response, resp2.url = resp.url →
        followSelector src resp2 sel raws = followSelector src resp sel raws) := by
  constructor
  · intro hok hne hnd
    unfold followSelector
    rw [followConvert_ok resp.url raws [] none hok]
    simp only [List.nil_append, Option.isSome_none, Bool.false_eq_true, if_false]
    have hl := followFetch_spec (Selector.rules sel src) resp
      (resolvedURLs resp.url raws) [] [] hne hnd (fun u _ => rfl) (fun u _ => rfl)
    have hl2 : followFetch (Selector.rules sel src) resp [] none
        (resolvedURLs resp.url raws) =
        (fetchSuccesses (Selector.rules sel src) resp (resolvedURLs resp.url raws),
          errsOpt (fetchFailures (Selector.rules sel src) resp
            (resolvedURLs resp.url raws))) := by
      simpa [errsOpt] using hl
    rw [hl2]
  · intro raw hmem e herr hfmt
    have h := followConvert_hits resp.url raws [] none raw e hmem herr hfmt
    exact ⟨followSelector_conv_fail src resp sel raws h, h,
      fun resp2 hurl => followSelector_url_only src sel resp resp2 raws hurl h⟩

/-- A response whose Extract succeeds only for https://a.test/1. -/
def c3resp : Response :=
  ⟨parseURL "https://ex.test/p",
    fun r => if r.url = some (parseURL "https://a.test/1") then (GoVal.gMap [], none)
      else (GoVal.gNil, some (.leaf "fetch failed"))⟩

/-- C3 witness: two convertible candidates, one absolute and one
relative; the fetch of one fails and the other still succeeds and is the
only key of the result; and, separately, the conversion-failure
short-circuit at a concrete input. -/
theorem claimC3_witness :
    followSelector Rules.empty c3resp c3sel
      [GoVal.gStr "https://a.test/1", GoVal.gStr "/rel"] =
      (GoVal.gMap [("https://a.test/1", GoVal.gMap [])],
        some (GoErr.errs [("https://ex.test/rel", GoErr.leaf "fetch failed")])) ∧
    followSelector Rules.empty respStub c3sel
      [GoVal.gList [], GoVal.gStr "https://ok.test/x"] =
      (GoVal.gNil, (followConvert respStub.url [] none
        [GoVal.gList [], GoVal.gStr "https://ok.test/x"]).2) := by
  have h1 := (claimC3_follow_urls Rules.empty c3resp c3sel
    [GoVal.gStr "https://a.test/1", GoVal.gStr "/rel"]).1
    (by
      intro raw hmem
      fin_cases hmem
      · exact ⟨parseURL "https://a.test/1", rfl⟩
      · exact ⟨parseURL "/rel", rfl⟩)
    (by intro u hu; fin_cases hu <;> decide)
    (by decide)
  have h2 := (claimC3_follow_urls Rules.empty respStub c3sel
    [GoVal.gList [], GoVal.gStr "https://ok.test/x"]).2
    (GoVal.gList []) (by simp) errMustBeString rfl (by decide)
  exact ⟨by rw [h1]; rfl, h2.1⟩

/-! ## Claim C10: empty-string raw selector values are silently skipped -/

theorem newSelector_empty_string (n : String) :
    newSelector n (GoVal.gStr "") = (none, none) := by
  simp [newSelector]

theorem newSelectorsLoop_skip (x : String × GoVal)
    (hskip : x.1 = "" ∨ x.2 = GoVal.gNil ∨ x.2 = GoVal.gStr "") :
    ∀ (pre post : List (String × GoVal)) (acc : List Selector)
      (errsAcc : Option GoErr),
      newSelectorsLoop acc errsAcc (pre ++ x :: post) =
        newSelectorsLoop acc errsAcc (pre ++ post) := by
  intro pre
  induction pre with
  | nil =>
    intro post acc errsAcc
    rcases x with ⟨n, v⟩
    rcases hskip with h | h | h
    · simp only at h
      simp [newSelectorsLoop, h]
    · simp only at h
      subst h
      simp [newSelectorsLoop, GoVal.isGNil]
    · simp only at h
      subst h
      by_cases hn : n = ""
      · simp [newSelectorsLoop, hn]
      · simp [newSelectorsLoop, hn, GoVal.isGNil, newSelector]
  | cons e pre2 ih =>
    intro post acc errsAcc
    rcases e with ⟨en, ev⟩
    simp only [List.cons_append, newSelectorsLoop]
    by_cases hskip2 : en = "" ∨ (GoVal.isGNil ev) = true
    · rw [if_pos hskip2, if_pos hskip2]
      exact ih post acc errsAcc
    · rw [if_neg hskip2, if_neg hskip2]
      rcases hr : newSelector en ev with ⟨selOpt, errOpt⟩
      cases errOpt with
      | some e2 =>
        simp only [hr]
        exact ih post acc _
      | none =>
        cases selOpt with
        | some sel =>
          simp only [hr]
          exact ih post _ errsAcc
        | none =>
          simp only [hr]
          exact ih post acc errsAcc

/-- C10: a raw selectors entry whose value is the empty string produces
neither a selector nor an error — `newSelector` returns (nil, nil) for
it, and the sibling list built by `newSelectors` is exactly the one built
without that entry, just as for entries with an empty name or a nil
value. -/
theorem claimC10_empty_string_selector_skipped (pre post : List (String × GoVal))
    (n : String) (v : GoVal) :
    newSelector n (GoVal.gStr "") = (none, none) ∧
    newSelectors (GoVal.gMap (pre ++ (n, GoVal.gStr "") :: post)) =
      newSelectors (GoVal.gMap (pre ++ post)) ∧
    newSelectors (GoVal.gMap (pre ++ ("", v) :: post)) =
      newSelectors (GoVal.gMap (pre ++ post)) ∧
    newSelectors (GoVal.gMap (pre ++ (n, GoVal.gNil) :: post)) =
      newSelectors (GoVal.gMap (pre ++ post)) := by
  refine ⟨newSelector_empty_string n, ?_, ?_, ?_⟩
  · simp only [newSelectors]
    exact newSelectorsLoop_skip (n, GoVal.gStr "") (by simp) pre post [] none
  · simp only [newSelectors]
    exact newSelectorsLoop_skip ("", v) (by simp) pre post [] none
  · simp only [newSelectors]
    exact newSelectorsLoop_skip (n, GoVal.gNil) (by simp) pre post [] none
